import Mathlib

/-!
Verification development for the contact-extraction core of
extract_mbox_contacts.py: a shallow embedding of the classifier,
address filter, name splitting, per-archive aggregation fold and the
cross-archive merge, together with theorems settling the frozen claims.

Modelling conventions:
* Python strings are modelled as Lean String values (lists of unicode
  scalar values); Python string slicing, lexicographic comparison and
  per-code-point lowercasing coincide with the List Char operations used
  here.  Lowercasing and whitespace stripping are modelled on the ASCII
  fragment, which is the fragment the source exercises (header tokens,
  email addresses, date strings).
* A message is modelled at the point where the source has read its
  headers: the label header value, the To/Cc pairs produced by
  getaddresses, the isoformat rendering of the parsed Date header (empty
  when absent or unparseable), the body text produced by parse_body_text
  and the first phone match.  A message whose fact derivation raises is
  modelled by a separate constructor recording which counters had
  already been incremented.
* Python dicts are insertion-ordered; they are modelled as association
  lists where insertion appends and update rewrites the first matching
  key in place.
-/

namespace Mbox

/-- Whitespace characters stripped by the Python str.strip method
(ASCII fragment: space, tab, newline, carriage return, vertical tab,
form feed). -/
def isSpaceChar (c : Char) : Bool :=
  c = ' ' || c = '\t' || c = '\n' || c = '\r' || c = '\x0b' || c = '\x0c'

/-- The single-quote character, written via its code point. -/
def quoteChar : Char := Char.ofNat 39

/-- Python chr.lower on the ASCII fragment: map A-Z to a-z, leave
everything else unchanged. -/
def lowerChar (c : Char) : Char :=
  if 65 ≤ c.toNat ∧ c.toNat ≤ 90 then Char.ofNat (c.toNat + 32) else c

/-- Python str.lower (ASCII fragment), as used on email addresses and
label tokens in the source. -/
def pyLower (s : String) : String := String.mk (s.data.map lowerChar)

/-- Drop the matching characters from both ends of a list. -/
def stripWhile (p : Char → Bool) (l : List Char) : List Char :=
  ((l.dropWhile p).reverse.dropWhile p).reverse

/-- Python str.strip with no argument: drop whitespace from both ends. -/
def pyStrip (s : String) : String := String.mk (stripWhile isSpaceChar s.data)

/-- Composition strip-then-lower applied by the source to recipient
emails (line 207) and to label tokens (line 72). -/
def stripLower (s : String) : String := pyLower (pyStrip s)

/-- Python split on a single separator character, keeping empty pieces,
as in labels.split(",") at line 72. -/
def splitChar (sep : Char) : List Char → List (List Char)
  | [] => [[]]
  | c :: rest =>
    let r := splitChar sep rest
    if c = sep then [] :: r
    else
      match r with
      | [] => [[c]]
      | piece :: more => (c :: piece) :: more

/-- Python str.split with no argument: split on whitespace runs,
returning no empty tokens. -/
def pySplitWs (l : List Char) : List String :=
  ((splitChar ' ' (l.map (fun c => if isSpaceChar c then ' ' else c))).map
    String.mk).filter (fun t => t ≠ "")

/-- SENT_LABEL_TOKENS from line 42 of the source. -/
def SENT_LABEL_TOKENS : List String := ["sent", "sent mail", "sent items"]

/-- Function is_sent_message (lines 63-73).  The labels argument is the
value of the X-Gmail-Labels header, none when the header is absent.
Python treats an empty header value as falsy, so it also yields the
assume_sent_if_no_labels default. -/
def is_sent_message (labels : Option String) (assume_sent_if_no_labels : Bool) : Bool :=
  match labels with
  | none => assume_sent_if_no_labels
  | some l =>
    if l = "" then assume_sent_if_no_labels
    else
      SENT_LABEL_TOKENS.any (fun token =>
        ((splitChar ',' l.data).map (fun t => stripLower (String.mk t))).contains token)

/-- End-of-string anchor of a Python regex: the dollar matches at the
end of the string or just before a trailing newline. -/
def endAnchor : List Char → Bool
  | [] => true
  | [c] => c = '\n'
  | _ :: _ :: _ => false

/-- Search for one literal part of a pattern: try every position of
the string, skipping only non-newline characters (the dot of the
pattern), and hand the remainder after the part to the continuation. -/
def matchSeg (p : List Char) (k : List Char → Bool) : List Char → Bool
  | [] => p.isPrefixOf [] && k []
  | c :: rest =>
    (p.isPrefixOf (c :: rest) && k ((c :: rest).drop p.length)) ||
    (!(c = '\n') && matchSeg p k rest)

/-- Matcher for the regex shape dot-star p1 dot-star p2 ... pn used by
every AUTOMATED_EMAIL_PATTERNS entry that starts with dot-star: each
gap is a run of non-newline characters, the parts are literal, and the
match is a prefix match (re.match).  When anchored is true the last
part must be followed by the end anchor; when it is false anything may
follow, which also absorbs a trailing dot-star of the source pattern. -/
def matchParts : List (List Char) → Bool → List Char → Bool
  | [], anchored, s => !anchored || endAnchor s
  | p :: ps, anchored, s => matchSeg p (fun s2 => matchParts ps anchored s2) s

/-- Lowercase hexadecimal digit, the character class of the tracking-id
pattern (the pattern is applied to the lowercased address). -/
def hexDigitLower (c : Char) : Bool :=
  c.isDigit || ('a' ≤ c && c ≤ 'f')

/-- Matcher for the anchored pattern of twenty or more hex digits
followed by an at sign: n counts the digits consumed so far. -/
def hexRunAt : List Char → Nat → Bool
  | [], _ => false
  | c :: rest, n => (c = '@' && decide (20 ≤ n)) || (hexDigitLower c && hexRunAt rest (n + 1))

/-- Matcher for the anchored pattern of one or more decimal digits
followed by an at sign. -/
def digitRunAt : List Char → Nat → Bool
  | [], _ => false
  | c :: rest, n => (c = '@' && decide (1 ≤ n)) || (c.isDigit && digitRunAt rest (n + 1))

/-- AUTOMATED_EMAIL_PATTERNS (lines 45-60), each regex translated to an
executable matcher with Python re.match semantics (anchored at the
start, dot excludes newline, dollar anchors the end). -/
def AUTOMATED_EMAIL_PATTERNS : List (List Char → Bool) :=
  [ matchParts [['@'], ".hubspotemail.net".data] true,
    matchParts [['@'], ".hubspot.com".data] true,
    matchParts ["@bcc.hubspot.com".data] true,
    matchParts [['@'], "unsubscribe".data] false,
    matchParts [['@'], "noreply".data] false,
    matchParts [['@'], "no-reply".data] false,
    matchParts [['@'], "donotreply".data] false,
    matchParts [['@'], "bounce".data] false,
    matchParts [['@'], "mailer-daemon".data] false,
    fun s => hexRunAt s 0,
    matchParts [['+'], ['='], ['@']] false,
    fun s => digitRunAt s 0,
    matchParts [['-'], ['='], ['@']] false,
    matchParts [['@'], ".linuxfoundation.org".data] true ]

/-- Function is_automated_email (lines 118-124): lowercase the address
and return true iff some pattern matches. -/
def is_automated_email (email : String) : Bool :=
  AUTOMATED_EMAIL_PATTERNS.any (fun p => p (pyLower email).data)

/-- Function split_name (lines 127-141).  Strips whitespace, then
double quotes, then single quotes; splits on whitespace.  Python
indexes tokens[0] and tokens[-1], which raises IndexError when the
stripped name is non-empty but splits into no tokens (for example a
single-quoted space); that exceptional case is modelled as none. -/
def split_name (name : String) : Option (String × String) :=
  if name = "" then some ("", "")
  else
    let n := stripWhile (fun c => c = quoteChar)
      (stripWhile (fun c => c = '"') (stripWhile isSpaceChar name.data))
    if n.isEmpty then some ("", "")
    else
      match pySplitWs n with
      | [] => none
      | [t] => some (t, "")
      | t :: u :: rest => some (t, (u :: rest).getLastD "")

/-- Contact record: the per-email aggregate built by extract_contacts
(lines 217-224). -/
structure ContactRecord where
  email : String
  first_name : String
  last_name : String
  phone : String
  last_contacted : String
  notes : String
deriving DecidableEq, Repr

/-- Statistics counters (lines 159-166). -/
structure Stats where
  total_messages : Nat
  sent_messages : Nat
  messages_with_recipients : Nat
  parse_errors : Nat
  unique_emails : Nat
  automated_emails_filtered : Nat
deriving DecidableEq, Repr

def initStats : Stats := ⟨0, 0, 0, 0, 0, 0⟩

/-- The contact map: a Python dict keyed by email, modelled as an
insertion-ordered association list. -/
abbrev Contacts := List (String × ContactRecord)

/-- Dictionary lookup: first entry with the given key. -/
def lookupC : Contacts → String → Option ContactRecord
  | [], _ => none
  | (k, v) :: rest, e => if k = e then some v else lookupC rest e

/-- Dictionary update in place: rewrite the first entry with the given
key, keep everything else. -/
def updateC : Contacts → String → ContactRecord → Contacts
  | [], _, _ => []
  | (k, v) :: rest, e, r => if k = e then (k, r) :: rest else (k, v) :: updateC rest e r

/-- Email normalization at line 207: strip then lowercase. -/
def normEmail (e : String) : String := stripLower e

/-- Lines 225-245: fold one recipient of a message into an existing
record: fill blank names, replace date and notes together when the
message date is non-empty and sorts after the stored one, and update
the phone when the incoming phone is non-empty and the record phone is
blank or the date was replaced. -/
def foldIntoExisting (ex : ContactRecord) (first_name last_name phone iso_date notes : String) :
    ContactRecord :=
  let f := if ex.first_name = "" ∧ first_name ≠ "" then first_name else ex.first_name
  let l := if ex.last_name = "" ∧ last_name ≠ "" then last_name else ex.last_name
  let replace : Bool :=
    iso_date ≠ "" && (ex.last_contacted = "" || ex.last_contacted.data < iso_date.data)
  let lc := if replace then iso_date else ex.last_contacted
  let nt := if replace then notes else ex.notes
  let ph := if phone ≠ "" && (ex.phone = "" || replace) then phone else ex.phone
  ⟨ex.email, f, l, ph, lc, nt⟩

/-- The recipient loop of extract_contacts (lines 206-245) on one
message: returns the updated contact map, the updated automated-filter
counter, and whether a split_name failure aborted the loop (the
IndexError caught at line 247).  On such a failure the recipients
already folded keep their updates and the remaining ones are dropped. -/
def foldPairs (iso_date notes phone : String) :
    Contacts → Nat → List (String × String) → Contacts × Nat × Bool
  | contacts, auto, [] => (contacts, auto, false)
  | contacts, auto, (display_name, em) :: rest =>
    let email := normEmail em
    if email = "" then foldPairs iso_date notes phone contacts auto rest
    else if is_automated_email email then foldPairs iso_date notes phone contacts (auto + 1) rest
    else
      match split_name display_name with
      | none => (contacts, auto, true)
      | some (fn, ln) =>
        match lookupC contacts email with
        | none =>
          foldPairs iso_date notes phone
            (contacts ++ [(email, ⟨email, fn, ln, phone, iso_date, notes⟩)]) auto rest
        | some ex =>
          foldPairs iso_date notes phone
            (updateC contacts email (foldIntoExisting ex fn ln phone iso_date notes)) auto rest

/-- Facts of one message at the point the source has derived them:
label header value, getaddresses pairs from To plus Cc, isoformat date
(empty when absent or unparseable), body text, first phone match. -/
structure Msg where
  labels : Option String
  pairs : List (String × String)
  iso_date : String
  body : String
  phone : String
deriving DecidableEq, Repr

/-- One record of the archive stream: either a message whose facts
were derived, or a message whose fact derivation raised (the except at
line 247); the two flags record whether the sent counter and the
recipients counter had been incremented before the exception. -/
inductive RawMsg where
  | ok (m : Msg)
  | raising (sentCounted : Bool) (recipCounted : Bool)
deriving DecidableEq, Repr

/-- State of the streaming scan. -/
structure ScanState where
  contacts : Contacts
  stats : Stats
deriving DecidableEq, Repr

/-- The body of the message loop of extract_contacts (lines 173-250)
for one message. -/
def step (assume_sent : Bool) (st : ScanState) (rm : RawMsg) : ScanState :=
  match rm with
  | .raising sentC recipC =>
    { st with stats := { st.stats with
        total_messages := st.stats.total_messages + 1,
        sent_messages := st.stats.sent_messages + (if sentC then 1 else 0),
        messages_with_recipients :=
          st.stats.messages_with_recipients + (if recipC then 1 else 0),
        parse_errors := st.stats.parse_errors + 1 } }
  | .ok m =>
    if is_sent_message m.labels assume_sent then
      if m.pairs.isEmpty then
        { st with stats := { st.stats with
            total_messages := st.stats.total_messages + 1,
            sent_messages := st.stats.sent_messages + 1 } }
      else
        let notes := String.mk (m.body.data.take 200)
        let res := foldPairs m.iso_date notes m.phone st.contacts
          st.stats.automated_emails_filtered m.pairs
        { contacts := res.1,
          stats := { st.stats with
            total_messages := st.stats.total_messages + 1,
            sent_messages := st.stats.sent_messages + 1,
            messages_with_recipients := st.stats.messages_with_recipients + 1,
            automated_emails_filtered := res.2.1,
            parse_errors := st.stats.parse_errors + (if res.2.2 then 1 else 0) } }
    else
      { st with stats := { st.stats with
          total_messages := st.stats.total_messages + 1 } }

/-- Function extract_contacts (lines 144-253) on the derived message
stream: fold every message, then store the map size in the
unique_emails counter. -/
def extract_contacts (assume_sent : Bool) (msgs : List RawMsg) : Contacts × Stats :=
  let st := msgs.foldl (step assume_sent) ⟨[], initStats⟩
  (st.contacts, { st.stats with unique_emails := st.contacts.length })

/-- Function merge_contact (lines 256-279), returning the updated
record instead of mutating in place. -/
def merge_contact (existing incoming : ContactRecord) : ContactRecord :=
  let f := if existing.first_name = "" ∧ incoming.first_name ≠ ""
    then incoming.first_name else existing.first_name
  let l := if existing.last_name = "" ∧ incoming.last_name ≠ ""
    then incoming.last_name else existing.last_name
  let existing_date := existing.last_contacted
  let incoming_date := incoming.last_contacted
  let replace : Bool :=
    incoming_date ≠ "" && (existing_date = "" || existing_date.data < incoming_date.data)
  let lc := if replace then incoming_date else existing_date
  let nt := if replace then incoming.notes else existing.notes
  let incoming_phone := incoming.phone
  let ph := if incoming_phone ≠ "" && (replace || existing.phone = "")
    then incoming_phone else existing.phone
  ⟨existing.email, f, l, ph, lc, nt⟩

/-- The contact-merging loop of extract_contacts_from_paths
(lines 301-306): fold one archive map into the accumulated map. -/
def mergeArchive (all_contacts : Contacts) (incoming : Contacts) : Contacts :=
  incoming.foldl (fun acc p =>
    match lookupC acc p.1 with
    | none => acc ++ [(p.1, p.2)]
    | some ex => updateC acc p.1 (merge_contact ex p.2)) all_contacts

/-- Stats merging of extract_contacts_from_paths (lines 297-299): sum
every counter except unique_emails, which is recomputed at the end. -/
def addStats (t s : Stats) : Stats :=
  ⟨t.total_messages + s.total_messages,
   t.sent_messages + s.sent_messages,
   t.messages_with_recipients + s.messages_with_recipients,
   t.parse_errors + s.parse_errors,
   t.unique_emails,
   t.automated_emails_filtered + s.automated_emails_filtered⟩

/-- The combination step of extract_contacts_from_paths applied to a
list of per-archive results. -/
def mergeAllResults (results : List (Contacts × Stats)) : Contacts × Stats :=
  let c := results.foldl (fun acc r => mergeArchive acc r.1) []
  let st := results.foldl (fun acc r => addStats acc r.2) initStats
  (c, { st with unique_emails := c.length })

/-- Function extract_contacts_from_paths (lines 282-309): each archive
is a pair of the assume-sent path heuristic (line 171) and its derived
message stream. -/
def extract_contacts_from_paths (archives : List (Bool × List RawMsg)) : Contacts × Stats :=
  mergeAllResults (archives.map (fun a => extract_contacts a.1 a.2))

/-- Lexicographic maximum of two strings, the combinator the replace
rule implements. -/
def lexMax (a b : String) : String := if a.data < b.data then b else a

/-- Run of characters the dot of a Python pattern may skip: anything
except a newline. -/
def noNewline (l : List Char) : Bool := l.all (fun c => !(c = '\n'))

/-- Modelled from the words of claim C2: the non-empty date strings of
the sent messages with recipients that name the given normalized email
as a To/Cc recipient. -/
def claimDates (assume_sent : Bool) (e : String) (msgs : List RawMsg) : List String :=
  msgs.filterMap (fun rm =>
    match rm with
    | .ok m =>
      if is_sent_message m.labels assume_sent && !m.pairs.isEmpty
          && m.pairs.any (fun p => normEmail p.2 = e) && m.iso_date ≠ "" then
        some m.iso_date
      else none
    | .raising _ _ => none)

/-- Modelled from the words of claim C2: the lexicographic maximum of
the claim dates, empty when there are none. -/
def claimMaxDate (assume_sent : Bool) (e : String) (msgs : List RawMsg) : String :=
  (claimDates assume_sent e msgs).foldl lexMax ""

/-- Modelled from the words of claim C7: the number of recipient
occurrences, after normalization and excluding empty emails, across
sent messages with recipients, for which is_automated_email is true. -/
def claimAutoCount (assume_sent : Bool) (msgs : List RawMsg) : Nat :=
  (msgs.map (fun rm =>
    match rm with
    | .ok m =>
      if is_sent_message m.labels assume_sent && !m.pairs.isEmpty then
        (m.pairs.filter (fun p =>
          normEmail p.2 ≠ "" && is_automated_email (normEmail p.2))).length
      else 0
    | .raising _ _ => 0)).sum

/-- Whether the recipient loop on these pairs hits the split_name
IndexError; mirrors the skip conditions of foldPairs but is independent
of the contact map. -/
def loopAborts : List (String × String) → Bool
  | [] => false
  | (display_name, em) :: rest =>
    let email := normEmail em
    if email = "" then loopAborts rest
    else if is_automated_email email then loopAborts rest
    else
      match split_name display_name with
      | none => true
      | some _ => loopAborts rest

/-- Contribution of one message to the parse-error counter. -/
def msgParseDelta (assume_sent : Bool) : RawMsg → Nat
  | .raising _ _ => 1
  | .ok m =>
    if is_sent_message m.labels assume_sent && !m.pairs.isEmpty && loopAborts m.pairs
    then 1 else 0

/-- The action of step on the contact map alone. -/
def cstep (assume_sent : Bool) (c : Contacts) (rm : RawMsg) : Contacts :=
  match rm with
  | .raising _ _ => c
  | .ok m =>
    if is_sent_message m.labels assume_sent then
      if m.pairs.isEmpty then c
      else (foldPairs m.iso_date (String.mk (m.body.data.take 200)) m.phone c 0 m.pairs).1
    else c

/-- Stored dates of the entries of one archive map under a given key,
in insertion order. -/
def archDates (m : Contacts) (e : String) : List String :=
  (m.filter (fun p => p.1 = e)).map (fun p => p.2.last_contacted)

/-- Display name on which split_name raises IndexError in the source:
a single-quoted space, as produced by getaddresses for a header such as
To: <single-quote, space, single-quote> addr. -/
def badName : String := String.mk [quoteChar, ' ', quoteChar]

/-- Failing input for claim C2, first message: a sent message to
b at y.com dated 2024-01-01. -/
def bugMsgA : Msg :=
  ⟨some "Sent", [("", "b@y.com")], "2024-01-01T00:00:00", "first body", ""⟩

/-- Failing input for claim C2, second message: a later sent message
naming b at y.com after a recipient whose display name makes
split_name raise, so the recipient loop aborts before reaching it. -/
def bugMsgB : Msg :=
  ⟨some "Sent", [(badName, "c@z.com"), ("", "b@y.com")], "2024-02-02T00:00:00", "second body", ""⟩

/-- Failing archive stream for claim C2. -/
def bugMsgs2 : List RawMsg := [.ok bugMsgA, .ok bugMsgB]

/-- Failing input for claim C7: the automated recipient occurrence
follows the recipient whose display name makes split_name raise, so it
is never counted. -/
def bugMsg7 : Msg :=
  ⟨some "Sent", [(badName, "c@z.com"), ("", "x@mailbounce.com")], "", "", ""⟩

/-- Failing archive stream for claim C7. -/
def bugMsgs7 : List RawMsg := [.ok bugMsg7]

/-- Counterexample input for claim C4: two archives holding the same
email with equal dates and different notes. -/
def tieRec1 : ContactRecord := ⟨"a@x.com", "", "", "", "2024-01-01T00:00:00", "note1"⟩

/-- Second record of the claim C4 counterexample. -/
def tieRec2 : ContactRecord := ⟨"a@x.com", "", "", "", "2024-01-01T00:00:00", "note2"⟩

/-- First per-archive result of the claim C4 counterexample. -/
def tieRes1 : Contacts × Stats := ([("a@x.com", tieRec1)], initStats)

/-- Second per-archive result of the claim C4 counterexample. -/
def tieRes2 : Contacts × Stats := ([("a@x.com", tieRec2)], initStats)

/-- Claim C5 source predicate: the record fields last_contacted and
notes both come from one single message of the stream, a sent message
with recipients that names the record key. -/
def noteSource (assume_sent : Bool) (msgs : List RawMsg) (e : String) (r : ContactRecord) :
    Prop :=
  ∃ mm : Msg, RawMsg.ok mm ∈ msgs
    ∧ is_sent_message mm.labels assume_sent = true
    ∧ mm.pairs ≠ []
    ∧ (∃ p ∈ mm.pairs, normEmail p.2 = e)
    ∧ r.last_contacted = mm.iso_date
    ∧ r.notes = String.mk (mm.body.data.take 200)

/-- Witness message for claims C5 and C6: first sent message. -/
def wMsg1 : Msg := ⟨some "Sent", [("Jane Doe", "a@x.com")], "2024-01-01", "b", ""⟩

/-- Witness message for claims C5 and C6: later sent message with a
different display name. -/
def wMsg2 : Msg := ⟨some "Sent", [("Janet Dow", "a@x.com")], "2024-02-02", "b2", ""⟩

/-- Record produced by the first witness message alone. -/
def wRec1 : ContactRecord := ⟨"a@x.com", "Jane", "Doe", "", "2024-01-01", "b"⟩

/-! Character-level lemmas about the ASCII lowercase map and the
whitespace class. -/

theorem toNat_ofNat_valid (n : Nat) (h : n.isValidChar) : (Char.ofNat n).toNat = n := by
  unfold Char.ofNat
  rw [dif_pos h]
  rfl

theorem char_toNat_inj {c d : Char} (h : c.toNat = d.toNat) : c = d := by
  apply Char.ext
  exact UInt32.toNat.inj h

theorem char_eq_iff_toNat {c d : Char} : c = d ↔ c.toNat = d.toNat :=
  ⟨fun h => h ▸ rfl, char_toNat_inj⟩

theorem char_le_iff_toNat {c d : Char} : c ≤ d ↔ c.toNat ≤ d.toNat := by
  rw [Char.le_def, UInt32.le_def, BitVec.le_def]
  rfl

theorem lowerChar_toNat (c : Char) :
    (lowerChar c).toNat = if 65 ≤ c.toNat ∧ c.toNat ≤ 90 then c.toNat + 32 else c.toNat := by
  unfold lowerChar
  split
  · rename_i h
    exact toNat_ofNat_valid _ (Or.inl (by omega))
  · rfl

theorem isSpaceChar_eq (c : Char) :
    isSpaceChar c = decide (c.toNat = 32 ∨ c.toNat = 9 ∨ c.toNat = 10 ∨ c.toNat = 13
      ∨ c.toNat = 11 ∨ c.toNat = 12) := by
  simp only [isSpaceChar, char_eq_iff_toNat]
  simp [Bool.or_assoc]

theorem isSpaceChar_lowerChar (c : Char) : isSpaceChar (lowerChar c) = isSpaceChar c := by
  rw [isSpaceChar_eq, isSpaceChar_eq, lowerChar_toNat]
  by_cases h : 65 ≤ c.toNat ∧ c.toNat ≤ 90
  · rw [if_pos h]
    simp only [decide_eq_decide]
    omega
  · rw [if_neg h]

theorem lowerChar_eq_self {c : Char} (h : ¬ (65 ≤ c.toNat ∧ c.toNat ≤ 90)) :
    lowerChar c = c := by
  unfold lowerChar
  rw [if_neg h]

theorem lowerChar_idem (c : Char) : lowerChar (lowerChar c) = lowerChar c := by
  by_cases h : 65 ≤ c.toNat ∧ c.toNat ≤ 90
  · have h1 : (lowerChar c).toNat = c.toNat + 32 := by rw [lowerChar_toNat, if_pos h]
    exact lowerChar_eq_self (by omega)
  · rw [lowerChar_eq_self h]
    exact lowerChar_eq_self h

theorem lowerChar_newline (c : Char) : lowerChar c = '\n' ↔ c = '\n' := by
  rw [char_eq_iff_toNat, char_eq_iff_toNat, lowerChar_toNat]
  by_cases h : 65 ≤ c.toNat ∧ c.toNat ≤ 90
  · rw [if_pos h]
    show c.toNat + 32 = 10 ↔ c.toNat = 10
    omega
  · rw [if_neg h]

/-! String-level lemmas: idempotence of the strip and lowercase maps. -/

theorem dropWhile_head_false {p : Char → Bool} {l : List Char} {c : Char}
    (h : (l.dropWhile p).head? = some c) : p c = false := by
  have hh := List.head?_dropWhile_not p l
  rw [h] at hh
  exact hh

theorem dropWhile_eq_self_of_head {p : Char → Bool} {l : List Char}
    (h : ∀ c, l.head? = some c → p c = false) : l.dropWhile p = l := by
  cases l with
  | nil => rfl
  | cons c rest => exact List.dropWhile_cons_of_neg (by simp [h c rfl])

theorem getLast?_dropWhile {p : Char → Bool} {l : List Char}
    (h : l.dropWhile p ≠ []) : (l.dropWhile p).getLast? = l.getLast? := by
  induction l with
  | nil => simp at h
  | cons c rest ih =>
    by_cases hc : p c
    · rw [List.dropWhile_cons_of_pos hc] at h ⊢
      rw [ih h]
      cases hr : rest with
      | nil =>
        rw [hr] at h
        simp at h
      | cons d t => simp
    · rw [List.dropWhile_cons_of_neg hc]

theorem stripWhile_head {p : Char → Bool} (l : List Char) :
    ∀ c, (stripWhile p l).head? = some c → p c = false := by
  intro c hc
  unfold stripWhile at hc
  rw [List.head?_reverse] at hc
  have hne : (l.dropWhile p).reverse.dropWhile p ≠ [] := by
    intro hnil
    rw [hnil] at hc
    simp at hc
  rw [getLast?_dropWhile hne, List.getLast?_reverse] at hc
  exact dropWhile_head_false hc

theorem stripWhile_getLast {p : Char → Bool} (l : List Char) :
    ∀ c, (stripWhile p l).getLast? = some c → p c = false := by
  intro c hc
  unfold stripWhile at hc
  rw [List.getLast?_reverse] at hc
  exact dropWhile_head_false hc

theorem stripWhile_eq_self {p : Char → Bool} {l : List Char}
    (h1 : ∀ c, l.head? = some c → p c = false)
    (h2 : ∀ c, l.getLast? = some c → p c = false) : stripWhile p l = l := by
  unfold stripWhile
  rw [dropWhile_eq_self_of_head h1]
  rw [dropWhile_eq_self_of_head (by intro c hc; rw [List.head?_reverse] at hc; exact h2 c hc)]
  exact List.reverse_reverse l

theorem stripWhile_idem (p : Char → Bool) (l : List Char) :
    stripWhile p (stripWhile p l) = stripWhile p l :=
  stripWhile_eq_self (stripWhile_head l) (stripWhile_getLast l)

theorem dropWhile_congr {p q : Char → Bool} (h : ∀ c, p c = q c) (l : List Char) :
    l.dropWhile p = l.dropWhile q := by
  induction l with
  | nil => rfl
  | cons c rest ih =>
    rw [List.dropWhile_cons, List.dropWhile_cons, h c, ih]

theorem dropWhile_comp_eq {p : Char → Bool} {f : Char → Char}
    (hf : ∀ c, p (f c) = p c) (l : List Char) :
    l.dropWhile (p ∘ f) = l.dropWhile p :=
  dropWhile_congr (fun c => hf c) l

theorem stripWhile_map_comm {p : Char → Bool} {f : Char → Char}
    (hf : ∀ c, p (f c) = p c) (l : List Char) :
    stripWhile p (l.map f) = (stripWhile p l).map f := by
  unfold stripWhile
  rw [List.dropWhile_map, dropWhile_comp_eq hf, ← List.map_reverse,
    List.dropWhile_map, dropWhile_comp_eq hf, ← List.map_reverse]

theorem pyLower_pyLower (s : String) : pyLower (pyLower s) = pyLower s := by
  unfold pyLower
  simp only [List.map_map]
  congr 1
  exact List.map_congr_left (fun c _ => lowerChar_idem c)

theorem pyStrip_stripLower (s : String) : pyStrip (stripLower s) = stripLower s := by
  show String.mk (stripWhile isSpaceChar (List.map lowerChar (stripWhile isSpaceChar s.data)))
    = String.mk (List.map lowerChar (stripWhile isSpaceChar s.data))
  rw [stripWhile_map_comm (fun c => isSpaceChar_lowerChar c), stripWhile_idem]

theorem pyLower_stripLower (s : String) : pyLower (stripLower s) = stripLower s := by
  unfold stripLower
  exact pyLower_pyLower (pyStrip s)



/-! Association-list lemmas for the contact map. -/

theorem lookupC_updateC_self (m : Contacts) (k : String) (v : ContactRecord) :
    lookupC (updateC m k v) k = (lookupC m k).map (fun _ => v) := by
  induction m with
  | nil => rfl
  | cons p rest ih =>
    obtain ⟨k1, v1⟩ := p
    by_cases h : k1 = k
    · simp [updateC, lookupC, h]
    · simp [updateC, lookupC, h, ih]

theorem lookupC_updateC_ne (m : Contacts) {k e : String} (v : ContactRecord)
    (h : e ≠ k) : lookupC (updateC m k v) e = lookupC m e := by
  induction m with
  | nil => rfl
  | cons p rest ih =>
    obtain ⟨k1, v1⟩ := p
    by_cases h1 : k1 = k
    · have hne : ¬ (k1 = e) := fun hh => h (hh ▸ h1)
      simp only [updateC, if_pos h1, lookupC]
      rw [if_neg hne, if_neg hne]
    · simp only [updateC, if_neg h1, lookupC, ih]

theorem lookupC_append_some {m1 : Contacts} (m2 : Contacts) {e : String} {r : ContactRecord}
    (h : lookupC m1 e = some r) : lookupC (m1 ++ m2) e = some r := by
  induction m1 with
  | nil => simp [lookupC] at h
  | cons p rest ih =>
    obtain ⟨k1, v1⟩ := p
    by_cases h1 : k1 = e
    · simp only [lookupC, if_pos h1] at h
      simp [lookupC, h1, h]
    · simp only [lookupC, if_neg h1] at h
      simp [lookupC, h1, ih h]

theorem lookupC_append_none {m1 : Contacts} (m2 : Contacts) {e : String}
    (h : lookupC m1 e = none) : lookupC (m1 ++ m2) e = lookupC m2 e := by
  induction m1 with
  | nil => rfl
  | cons p rest ih =>
    obtain ⟨k1, v1⟩ := p
    by_cases h1 : k1 = e
    · simp [lookupC, h1] at h
    · simp only [lookupC, if_neg h1] at h
      simp [lookupC, h1, ih h]

theorem lookupC_mem {m : Contacts} {e : String} {r : ContactRecord}
    (h : lookupC m e = some r) : (e, r) ∈ m := by
  induction m with
  | nil => simp [lookupC] at h
  | cons p rest ih =>
    obtain ⟨k1, v1⟩ := p
    by_cases h1 : k1 = e
    · simp only [lookupC, if_pos h1, Option.some.injEq] at h
      subst h1 h
      exact List.mem_cons_self _ _
    · simp only [lookupC, if_neg h1] at h
      exact List.mem_cons_of_mem _ (ih h)

theorem mem_updateC {m : Contacts} {k : String} {v : ContactRecord} {p : String × ContactRecord}
    (h : p ∈ updateC m k v) : p ∈ m ∨ p = (k, v) := by
  induction m with
  | nil => simp [updateC] at h
  | cons q rest ih =>
    obtain ⟨k1, v1⟩ := q
    by_cases h1 : k1 = k
    · subst h1
      simp only [updateC, if_pos rfl] at h
      rcases List.mem_cons.mp h with h2 | h2
      · right
        rw [h2]
      · left
        exact List.mem_cons_of_mem _ h2
    · simp only [updateC, if_neg h1] at h
      rcases List.mem_cons.mp h with h2 | h2
      · left
        rw [h2]
        exact List.mem_cons_self _ _
      · rcases ih h2 with h3 | h3
        · exact Or.inl (List.mem_cons_of_mem _ h3)
        · exact Or.inr h3

/-! Lexicographic-maximum lemmas. -/

theorem data_lt_iff (a b : String) : a.data < b.data ↔ a < b :=
  Iff.symm String.lt_iff_toList_lt

theorem lexMax_def (a b : String) : lexMax a b = if a < b then b else a := by
  unfold lexMax
  exact if_congr (data_lt_iff a b) rfl rfl

theorem lexMax_eq_max (a b : String) : lexMax a b = max b a := by
  rw [lexMax_def]
  rcases lt_trichotomy a b with h | h | h
  · rw [if_pos h, max_eq_left h.le]
  · subst h
    simp
  · rw [if_neg (asymm h), max_eq_right h.le]

theorem lexMax_comm (a b : String) : lexMax a b = lexMax b a := by
  rw [lexMax_eq_max, lexMax_eq_max, max_comm]

theorem lexMax_assoc (a b c : String) : lexMax (lexMax a b) c = lexMax a (lexMax b c) := by
  rw [lexMax_eq_max, lexMax_eq_max, lexMax_eq_max, lexMax_eq_max, ← max_assoc]

theorem empty_le_string (s : String) : "" ≤ s := by
  rw [String.le_iff_toList_le]
  exact List.nil_le

theorem lexMax_empty_left (s : String) : lexMax "" s = s := by
  rw [lexMax_eq_max]
  exact max_eq_left (empty_le_string s)

theorem lexMax_empty_right (s : String) : lexMax s "" = s := by
  rw [lexMax_eq_max]
  exact max_eq_right (empty_le_string s)

theorem foldl_lexMax_shift (l : List String) (a : String) :
    l.foldl lexMax a = lexMax a (l.foldl lexMax "") := by
  induction l generalizing a with
  | nil => simp [List.foldl, lexMax_empty_right]
  | cons b rest ih =>
    simp only [List.foldl]
    rw [ih (lexMax a b), ih (lexMax "" b), lexMax_empty_left, lexMax_assoc]

/-! Field lemmas for merge_contact. -/

theorem merge_contact_email (ex inc : ContactRecord) :
    (merge_contact ex inc).email = ex.email := rfl

theorem merge_contact_lc (ex inc : ContactRecord) :
    (merge_contact ex inc).last_contacted = lexMax ex.last_contacted inc.last_contacted := by
  unfold merge_contact
  dsimp only
  split
  · rename_i h
    simp only [Bool.and_eq_true, Bool.or_eq_true, decide_eq_true_eq, data_lt_iff] at h
    have hlt : ex.last_contacted.data < inc.last_contacted.data := by
      apply (data_lt_iff _ _).mpr
      rcases h.2 with h2 | h2
      · rw [h2]
        exact lt_of_le_of_ne (empty_le_string _) (fun hh => h.1 hh.symm)
      · exact h2
    unfold lexMax
    rw [if_pos hlt]
  · rename_i h
    simp only [Bool.and_eq_true, Bool.or_eq_true, decide_eq_true_eq, data_lt_iff, not_and,
      not_or] at h
    by_cases h1 : inc.last_contacted = ""
    · rw [h1, lexMax_empty_right]
    · rcases h h1 with ⟨h2, h3⟩
      unfold lexMax
      rw [if_neg (fun hh => h3 ((data_lt_iff _ _).mp hh))]

theorem merge_contact_pair (ex inc : ContactRecord) :
    ((merge_contact ex inc).last_contacted = ex.last_contacted
      ∧ (merge_contact ex inc).notes = ex.notes)
    ∨ ((merge_contact ex inc).last_contacted = inc.last_contacted
      ∧ (merge_contact ex inc).notes = inc.notes) := by
  unfold merge_contact
  dsimp only
  split
  · right
    exact ⟨rfl, rfl⟩
  · left
    exact ⟨rfl, rfl⟩

theorem merge_contact_first (ex inc : ContactRecord) (h : ex.first_name ≠ "") :
    (merge_contact ex inc).first_name = ex.first_name := by
  simp [merge_contact, h]

theorem merge_contact_last (ex inc : ContactRecord) (h : ex.last_name ≠ "") :
    (merge_contact ex inc).last_name = ex.last_name := by
  simp [merge_contact, h]



/-- Claim C1: in the single-archive aggregator, for every message
folded into an existing ContactRecord, replace holds iff the message
date string is non-empty and the existing last_contacted is empty or
the message date string is lexicographically greater; when replace
holds, last_contacted and notes are both overwritten with this message
values; and phone is overwritten iff the incoming phone is non-empty
and replace holds or the existing phone is empty. -/
theorem claim1 (ex : ContactRecord) (fn ln phone iso notes : String) :
    ((iso ≠ "" ∧ (ex.last_contacted = "" ∨ ex.last_contacted < iso)) →
      (foldIntoExisting ex fn ln phone iso notes).last_contacted = iso
      ∧ (foldIntoExisting ex fn ln phone iso notes).notes = notes)
    ∧ (¬ (iso ≠ "" ∧ (ex.last_contacted = "" ∨ ex.last_contacted < iso)) →
      (foldIntoExisting ex fn ln phone iso notes).last_contacted = ex.last_contacted
      ∧ (foldIntoExisting ex fn ln phone iso notes).notes = ex.notes)
    ∧ ((phone ≠ "" ∧ ((iso ≠ "" ∧ (ex.last_contacted = "" ∨ ex.last_contacted < iso))
        ∨ ex.phone = "")) →
      (foldIntoExisting ex fn ln phone iso notes).phone = phone)
    ∧ (¬ (phone ≠ "" ∧ ((iso ≠ "" ∧ (ex.last_contacted = "" ∨ ex.last_contacted < iso))
        ∨ ex.phone = "")) →
      (foldIntoExisting ex fn ln phone iso notes).phone = ex.phone) := by
  refine ⟨fun hP => ?_, fun hP => ?_, fun hP => ?_, fun hP => ?_⟩
  all_goals unfold foldIntoExisting
  all_goals dsimp only
  · split
    · exact ⟨rfl, rfl⟩
    · rename_i h
      simp only [Bool.and_eq_true, Bool.or_eq_true, decide_eq_true_eq, data_lt_iff] at h
      exact absurd hP h
  · split
    · rename_i h
      simp only [Bool.and_eq_true, Bool.or_eq_true, decide_eq_true_eq, data_lt_iff] at h
      exact absurd h hP
    · exact ⟨rfl, rfl⟩
  · split
    · rfl
    · rename_i h
      simp only [Bool.and_eq_true, Bool.or_eq_true, decide_eq_true_eq, data_lt_iff] at h
      exact absurd (by tauto) h
  · split
    · rename_i h
      simp only [Bool.and_eq_true, Bool.or_eq_true, decide_eq_true_eq, data_lt_iff] at h
      exact absurd (by tauto) hP
    · rfl

/-- Witness for claim C1 at a concrete record and message: the later
date replaces both last_contacted and notes, and the phone is taken
because the record phone is empty. -/
theorem claim1_witness :
    (foldIntoExisting ⟨"a@x.com", "", "", "", "2024-01-01", "old"⟩
      "Jane" "Doe" "555-123-4567" "2024-02-02" "new").last_contacted = "2024-02-02"
    ∧ (foldIntoExisting ⟨"a@x.com", "", "", "", "2024-01-01", "old"⟩
      "Jane" "Doe" "555-123-4567" "2024-02-02" "new").notes = "new"
    ∧ (foldIntoExisting ⟨"a@x.com", "", "", "", "2024-01-01", "old"⟩
      "Jane" "Doe" "555-123-4567" "2024-02-02" "new").phone = "555-123-4567" := by
  have h := claim1 ⟨"a@x.com", "", "", "", "2024-01-01", "old"⟩
    "Jane" "Doe" "555-123-4567" "2024-02-02" "new"
  refine ⟨(h.1 ?_).1, (h.1 ?_).2, h.2.2.1 ?_⟩
  · exact ⟨by decide, Or.inr ((data_lt_iff _ _).mp (by decide))⟩
  · exact ⟨by decide, Or.inr ((data_lt_iff _ _).mp (by decide))⟩
  · exact ⟨by decide, Or.inl ⟨by decide, Or.inr ((data_lt_iff _ _).mp (by decide))⟩⟩



/-- Counterexample for claim C9: with the label header present but
equal to the empty string and the default true, the code returns the
default, while the token formula of the claim yields false. -/
theorem claim9_cex :
    is_sent_message (some "") true = true
    ∧ (SENT_LABEL_TOKENS.any (fun token =>
        ((splitChar ',' ("" : String).data).map (fun t => stripLower (String.mk t))).contains
          token)) = false := by
  constructor
  · rfl
  · rfl

/-- Claim C9 as amended: when the label header is absent or its value
is the empty string, is_sent_message returns the caller-supplied
default; when it is present and non-empty, it returns true iff some
comma-separated token, trimmed and lowercased, is a member of
SENT_LABEL_TOKENS; the function is total, so it never raises. -/
theorem claim9_amended (labels : Option String) (assume_sent : Bool) :
    ((labels = none ∨ labels = some "") → is_sent_message labels assume_sent = assume_sent)
    ∧ (∀ l, labels = some l → l ≠ "" →
        (is_sent_message labels assume_sent = true ↔
          ∃ t ∈ splitChar ',' l.data, stripLower (String.mk t) ∈ SENT_LABEL_TOKENS)) := by
  constructor
  · rintro (h | h) <;> subst h <;> rfl
  · rintro l rfl hne
    simp only [is_sent_message, if_neg hne]
    rw [List.any_eq_true]
    constructor
    · rintro ⟨tok, htok, hcont⟩
      rw [List.elem_iff] at hcont
      rcases List.mem_map.mp hcont with ⟨t, ht, heq⟩
      exact ⟨t, ht, heq ▸ htok⟩
    · rintro ⟨t, ht, hmem⟩
      refine ⟨stripLower (String.mk t), hmem, ?_⟩
      rw [List.elem_iff]
      exact List.mem_map.mpr ⟨t, ht, rfl⟩

/-- Witness for the amended claim C9: a header listing Sent among
other labels classifies the message as sent, and an absent header
falls back to the default. -/
theorem claim9_witness :
    is_sent_message (some "Inbox,Sent Mail") false = true
    ∧ is_sent_message none true = true := by
  constructor
  · apply ((claim9_amended (some "Inbox,Sent Mail") false).2 "Inbox,Sent Mail" rfl
      (by decide)).mpr
    refine ⟨"Sent Mail".data, ?_, ?_⟩
    · decide
    · decide
  · exact (claim9_amended none true).1 (Or.inl rfl)



/-! Matcher lemmas for the automated-address patterns. -/

theorem matchParts_nil_false (s : List Char) : matchParts [] false s = true := by
  unfold matchParts
  rfl

theorem matchSeg_here {p : List Char} {k : List Char → Bool} {s : List Char}
    (h1 : p.isPrefixOf s = true) (h2 : k (s.drop p.length) = true) :
    matchSeg p k s = true := by
  cases s with
  | nil =>
    unfold matchSeg
    rw [h1, Bool.true_and]
    simpa using h2
  | cons c rest =>
    unfold matchSeg
    rw [h1, h2]
    rfl

theorem matchSeg_skip {p : List Char} {k : List Char → Bool} {c : Char} {rest : List Char}
    (hc : ¬ c = '\n') (h : matchSeg p k rest = true) :
    matchSeg p k (c :: rest) = true := by
  unfold matchSeg
  rw [h]
  simp [hc]

theorem matchParts_here {p : List Char} {ps : List (List Char)} {anchored : Bool} {s : List Char}
    (h1 : p.isPrefixOf s = true) (h2 : matchParts ps anchored (s.drop p.length) = true) :
    matchParts (p :: ps) anchored s = true := by
  show matchSeg p (fun s2 => matchParts ps anchored s2) s = true
  exact matchSeg_here h1 h2

theorem matchParts_skip {p : List Char} {ps : List (List Char)} {anchored : Bool}
    {c : Char} {rest : List Char} (hc : ¬ c = '\n')
    (h : matchParts (p :: ps) anchored rest = true) :
    matchParts (p :: ps) anchored (c :: rest) = true := by
  show matchSeg p (fun s2 => matchParts ps anchored s2) (c :: rest) = true
  exact matchSeg_skip hc h

theorem matchParts_skipAll {p : List Char} {ps : List (List Char)} {anchored : Bool}
    (x : List Char) {s : List Char} (hx : noNewline x = true)
    (h : matchParts (p :: ps) anchored s = true) :
    matchParts (p :: ps) anchored (x ++ s) = true := by
  induction x with
  | nil => exact h
  | cons c t ih =>
    unfold noNewline at hx
    simp only [List.all_cons, Bool.and_eq_true, Bool.not_eq_true'] at hx
    have hc : ¬ c = '\n' := by
      intro hh
      rw [hh] at hx
      simp at hx
    exact matchParts_skip hc (ih (by unfold noNewline; exact hx.2))

theorem isPrefixOf_append_self (l t : List Char) : l.isPrefixOf (l ++ t) = true :=
  List.isPrefixOf_iff_prefix.mpr (List.prefix_append l t)

theorem matchAtThenKw (kw x y rest : List Char) (hx : noNewline x = true)
    (hy : noNewline y = true) :
    matchParts [['@'], kw] false (x ++ '@' :: (y ++ (kw ++ rest))) = true := by
  apply matchParts_skipAll x hx
  apply matchParts_here (p := ['@']) (by simp [List.isPrefixOf])
  show matchParts [kw] false (y ++ (kw ++ rest)) = true
  apply matchParts_skipAll y hy
  apply matchParts_here (isPrefixOf_append_self kw rest)
  rw [List.drop_left]
  exact matchParts_nil_false rest

theorem noNewline_map_lower (l : List Char) : noNewline (l.map lowerChar) = noNewline l := by
  unfold noNewline
  rw [List.all_map]
  induction l with
  | nil => rfl
  | cons c t ih =>
    simp only [List.all_cons, ih, Function.comp]
    congr 1
    by_cases h : lowerChar c = '\n'
    · rw [h, (lowerChar_newline c).mp h]
    · rw [decide_eq_false h, decide_eq_false (fun hh => h ((lowerChar_newline c).mpr hh))]



theorem lowerChar_at : lowerChar '@' = '@' := by decide

theorem uint32_le_iff {a b : UInt32} : a ≤ b ↔ a.toNat ≤ b.toNat := by
  rw [UInt32.le_def, BitVec.le_def]
  rfl

theorem autoKeyword (kw : String) (hkw : kw.data.map lowerChar = kw.data)
    (hmem : (matchParts [['@'], kw.data] false) ∈ AUTOMATED_EMAIL_PATTERNS)
    (x y z : String) (hx : noNewline x.data = true) (hy : noNewline y.data = true) :
    is_automated_email (x ++ "@" ++ y ++ kw ++ z) = true := by
  unfold is_automated_email
  apply List.any_eq_true.mpr
  refine ⟨_, hmem, ?_⟩
  show matchParts [['@'], kw.data] false (pyLower (x ++ "@" ++ y ++ kw ++ z)).data = true
  have hdata : (pyLower (x ++ "@" ++ y ++ kw ++ z)).data
      = (x.data.map lowerChar) ++ '@'
        :: ((y.data.map lowerChar) ++ (kw.data ++ (z.data.map lowerChar))) := by
    show ((x ++ "@" ++ y ++ kw ++ z).data.map lowerChar) = _
    simp only [String.data_append, List.map_append, List.append_assoc, hkw]
    simp [lowerChar_at]
  rw [hdata]
  exact matchAtThenKw kw.data (x.data.map lowerChar) (y.data.map lowerChar)
    (z.data.map lowerChar) (by rw [noNewline_map_lower]; exact hx)
    (by rw [noNewline_map_lower]; exact hy)

theorem lowerChar_hex {c : Char} (h : hexDigitLower c = true) : lowerChar c = c := by
  apply lowerChar_eq_self
  unfold hexDigitLower at h
  simp only [Bool.or_eq_true, Bool.and_eq_true] at h
  rcases h with h | ⟨h1, h2⟩
  · unfold Char.isDigit at h
    simp only [Bool.and_eq_true, decide_eq_true_eq, ge_iff_le] at h
    rcases h with ⟨h1, h2⟩
    rw [uint32_le_iff] at h1 h2
    have e1 : (48 : UInt32).toNat = 48 := rfl
    have e2 : (57 : UInt32).toNat = 57 := rfl
    have e3 : c.toNat = c.val.toNat := rfl
    omega
  · rw [decide_eq_true_eq, char_le_iff_toNat] at h1 h2
    have e1 : ('a' : Char).toNat = 97 := by decide
    have e2 : ('f' : Char).toNat = 102 := by decide
    omega

theorem lowerChar_digit {c : Char} (h : c.isDigit = true) : lowerChar c = c := by
  apply lowerChar_hex
  unfold hexDigitLower
  rw [h]
  rfl

theorem hexRunAt_of_run (loc rest : List Char) (n : Nat)
    (hhex : ∀ c ∈ loc, hexDigitLower c = true) (hlen : 20 ≤ n + loc.length) :
    hexRunAt (loc ++ '@' :: rest) n = true := by
  induction loc generalizing n with
  | nil =>
    unfold hexRunAt
    simp only [List.length_nil, Nat.add_zero] at hlen
    simp [hlen]
  | cons c t ih =>
    rw [List.cons_append]
    simp only [hexRunAt]
    rw [Bool.or_eq_true]
    right
    rw [hhex c (List.mem_cons_self c t), Bool.true_and]
    apply ih (n + 1) (fun d hd => hhex d (List.mem_cons_of_mem c hd))
    simp only [List.length_cons] at hlen
    omega

theorem digitRunAt_of_run (loc rest : List Char) (n : Nat)
    (hdig : ∀ c ∈ loc, c.isDigit = true) (hlen : 1 ≤ n + loc.length) :
    digitRunAt (loc ++ '@' :: rest) n = true := by
  induction loc generalizing n with
  | nil =>
    unfold digitRunAt
    simp only [List.length_nil, Nat.add_zero] at hlen
    simp [hlen]
  | cons c t ih =>
    rw [List.cons_append]
    simp only [digitRunAt]
    rw [Bool.or_eq_true]
    right
    rw [hdig c (List.mem_cons_self c t), Bool.true_and]
    apply ih (n + 1) (fun d hd => hdig d (List.mem_cons_of_mem c hd))
    simp only [List.length_cons] at hlen
    omega



theorem lowerChar_plus : lowerChar '+' = '+' := by decide

theorem lowerChar_equalsign : lowerChar '=' = '=' := by decide

theorem lowerChar_dash : lowerChar '-' = '-' := by decide

theorem matchCharCons {ch : Char} {ps : List (List Char)} {anchored : Bool} {s : List Char}
    (h : matchParts ps anchored s = true) :
    matchParts ([ch] :: ps) anchored (ch :: s) = true := by
  apply matchParts_here (p := [ch]) (by simp [List.isPrefixOf])
  simpa using h

theorem autoCharChain (c1 c2 : Char) (x y z w : List Char)
    (hx : noNewline x = true) (hy : noNewline y = true) (hz : noNewline z = true) :
    matchParts [[c1], [c2], ['@']] false (x ++ c1 :: (y ++ c2 :: (z ++ '@' :: w))) = true := by
  apply matchParts_skipAll x hx
  apply matchCharCons
  apply matchParts_skipAll y hy
  apply matchCharCons
  apply matchParts_skipAll z hz
  apply matchCharCons
  exact matchParts_nil_false w


theorem map_lower_hex {loc : List Char} (hhex : ∀ c ∈ loc, hexDigitLower c = true) :
    loc.map lowerChar = loc := by
  conv_rhs => rw [← List.map_id loc]
  exact List.map_congr_left (fun c hc => lowerChar_hex (hhex c hc))

/-- Counterexample for claim C3: the address below contains the word
unsubscribe, but only before its at sign, and no pattern matches it,
so is_automated_email returns false while the claim requires true. -/
theorem claim3_cex :
    ("unsubscribe@example.com" : String) = "unsubscribe" ++ "@example.com"
    ∧ is_automated_email "unsubscribe@example.com" = false := by
  constructor
  · rfl
  · decide

/-- Claim C3 as amended: is_automated_email returns true for every
address in which one of the listed keywords appears somewhere after an
at sign (with no newline before it), for local parts that are
hexadecimal strings of at least twenty characters, for purely numeric
local parts, for a plus followed by an equals sign followed by an at
sign, and for a dash followed by an equals sign followed by an at
sign; and it returns false for every address matching no pattern. -/
theorem claim3_amended :
    (∀ x y z : String, noNewline x.data = true → noNewline y.data = true →
      is_automated_email (x ++ "@" ++ y ++ "unsubscribe" ++ z) = true)
    ∧ (∀ x y z : String, noNewline x.data = true → noNewline y.data = true →
      is_automated_email (x ++ "@" ++ y ++ "noreply" ++ z) = true)
    ∧ (∀ x y z : String, noNewline x.data = true → noNewline y.data = true →
      is_automated_email (x ++ "@" ++ y ++ "no-reply" ++ z) = true)
    ∧ (∀ x y z : String, noNewline x.data = true → noNewline y.data = true →
      is_automated_email (x ++ "@" ++ y ++ "donotreply" ++ z) = true)
    ∧ (∀ x y z : String, noNewline x.data = true → noNewline y.data = true →
      is_automated_email (x ++ "@" ++ y ++ "bounce" ++ z) = true)
    ∧ (∀ x y z : String, noNewline x.data = true → noNewline y.data = true →
      is_automated_email (x ++ "@" ++ y ++ "mailer-daemon" ++ z) = true)
    ∧ (∀ loc rest : String, 20 ≤ loc.data.length →
      (∀ c ∈ loc.data, hexDigitLower c = true) →
      is_automated_email (loc ++ "@" ++ rest) = true)
    ∧ (∀ loc rest : String, loc.data ≠ [] → (∀ c ∈ loc.data, c.isDigit = true) →
      is_automated_email (loc ++ "@" ++ rest) = true)
    ∧ (∀ x y z w : String, noNewline x.data = true → noNewline y.data = true →
      noNewline z.data = true →
      is_automated_email (x ++ "+" ++ y ++ "=" ++ z ++ "@" ++ w) = true)
    ∧ (∀ x y z w : String, noNewline x.data = true → noNewline y.data = true →
      noNewline z.data = true →
      is_automated_email (x ++ "-" ++ y ++ "=" ++ z ++ "@" ++ w) = true)
    ∧ (∀ email : String, (∀ p ∈ AUTOMATED_EMAIL_PATTERNS, p (pyLower email).data = false) →
      is_automated_email email = false) := by
  refine ⟨?_, ?_, ?_, ?_, ?_, ?_, ?_, ?_, ?_, ?_, ?_⟩
  · exact fun x y z hx hy => autoKeyword "unsubscribe" (by decide)
      (by simp [AUTOMATED_EMAIL_PATTERNS]) x y z hx hy
  · exact fun x y z hx hy => autoKeyword "noreply" (by decide)
      (by simp [AUTOMATED_EMAIL_PATTERNS]) x y z hx hy
  · exact fun x y z hx hy => autoKeyword "no-reply" (by decide)
      (by simp [AUTOMATED_EMAIL_PATTERNS]) x y z hx hy
  · exact fun x y z hx hy => autoKeyword "donotreply" (by decide)
      (by simp [AUTOMATED_EMAIL_PATTERNS]) x y z hx hy
  · exact fun x y z hx hy => autoKeyword "bounce" (by decide)
      (by simp [AUTOMATED_EMAIL_PATTERNS]) x y z hx hy
  · exact fun x y z hx hy => autoKeyword "mailer-daemon" (by decide)
      (by simp [AUTOMATED_EMAIL_PATTERNS]) x y z hx hy
  · intro loc rest hlen hhex
    unfold is_automated_email
    apply List.any_eq_true.mpr
    refine ⟨fun s => hexRunAt s 0, by simp [AUTOMATED_EMAIL_PATTERNS], ?_⟩
    show hexRunAt (pyLower (loc ++ "@" ++ rest)).data 0 = true
    have hdata : (pyLower (loc ++ "@" ++ rest)).data
        = loc.data ++ '@' :: (rest.data.map lowerChar) := by
      show (loc ++ "@" ++ rest).data.map lowerChar = _
      simp [String.data_append, List.map_append, map_lower_hex hhex, lowerChar_at]
    rw [hdata]
    exact hexRunAt_of_run loc.data _ 0 hhex (by omega)
  · intro loc rest hne hdig
    unfold is_automated_email
    apply List.any_eq_true.mpr
    refine ⟨fun s => digitRunAt s 0, by simp [AUTOMATED_EMAIL_PATTERNS], ?_⟩
    show digitRunAt (pyLower (loc ++ "@" ++ rest)).data 0 = true
    have hdata : (pyLower (loc ++ "@" ++ rest)).data
        = loc.data ++ '@' :: (rest.data.map lowerChar) := by
      show (loc ++ "@" ++ rest).data.map lowerChar = _
      have hml : loc.data.map lowerChar = loc.data := by
        conv_rhs => rw [← List.map_id loc.data]
        exact List.map_congr_left (fun c hc => lowerChar_digit (hdig c hc))
      simp [String.data_append, List.map_append, hml, lowerChar_at]
    rw [hdata]
    have hpos : 1 ≤ 0 + loc.data.length := by
      have := List.length_pos.mpr hne
      omega
    exact digitRunAt_of_run loc.data _ 0 hdig hpos
  · intro x y z w hx hy hz
    unfold is_automated_email
    apply List.any_eq_true.mpr
    refine ⟨matchParts [['+'], ['='], ['@']] false, by simp [AUTOMATED_EMAIL_PATTERNS], ?_⟩
    show matchParts [['+'], ['='], ['@']] false
      (pyLower (x ++ "+" ++ y ++ "=" ++ z ++ "@" ++ w)).data = true
    have hdata : (pyLower (x ++ "+" ++ y ++ "=" ++ z ++ "@" ++ w)).data
        = (x.data.map lowerChar) ++ '+' :: ((y.data.map lowerChar)
          ++ '=' :: ((z.data.map lowerChar) ++ '@' :: (w.data.map lowerChar))) := by
      show (x ++ "+" ++ y ++ "=" ++ z ++ "@" ++ w).data.map lowerChar = _
      simp [String.data_append, List.map_append, lowerChar_plus, lowerChar_equalsign,
        lowerChar_at]
    rw [hdata]
    exact autoCharChain '+' '=' _ _ _ _ (by rw [noNewline_map_lower]; exact hx)
      (by rw [noNewline_map_lower]; exact hy) (by rw [noNewline_map_lower]; exact hz)
  · intro x y z w hx hy hz
    unfold is_automated_email
    apply List.any_eq_true.mpr
    refine ⟨matchParts [['-'], ['='], ['@']] false, by simp [AUTOMATED_EMAIL_PATTERNS], ?_⟩
    show matchParts [['-'], ['='], ['@']] false
      (pyLower (x ++ "-" ++ y ++ "=" ++ z ++ "@" ++ w)).data = true
    have hdata : (pyLower (x ++ "-" ++ y ++ "=" ++ z ++ "@" ++ w)).data
        = (x.data.map lowerChar) ++ '-' :: ((y.data.map lowerChar)
          ++ '=' :: ((z.data.map lowerChar) ++ '@' :: (w.data.map lowerChar))) := by
      show (x ++ "-" ++ y ++ "=" ++ z ++ "@" ++ w).data.map lowerChar = _
      simp [String.data_append, List.map_append, lowerChar_dash, lowerChar_equalsign,
        lowerChar_at]
    rw [hdata]
    exact autoCharChain '-' '=' _ _ _ _ (by rw [noNewline_map_lower]; exact hx)
      (by rw [noNewline_map_lower]; exact hy) (by rw [noNewline_map_lower]; exact hz)
  · intro email hall
    unfold is_automated_email
    apply List.any_eq_false.mpr
    intro p hp
    rw [hall p hp]
    exact Bool.false_ne_true

/-- Witness for the amended claim C3 at concrete addresses: a keyword
after the at sign and a purely numeric local part. -/
theorem claim3_witness :
    is_automated_email ("x" ++ "@" ++ "abc" ++ "unsubscribe" ++ ".com") = true
    ∧ is_automated_email ("12345" ++ "@" ++ "x.com") = true := by
  constructor
  · exact claim3_amended.1 "x" "abc" ".com" (by decide) (by decide)
  · exact claim3_amended.2.2.2.2.2.2.2.1 "12345" "x.com" (by decide) (by decide)



/-- Claim C2 evaluation at the failing input: the contact b at y.com
ends with last_contacted 2024-01-01 although the lexicographic maximum
of the dates of sent messages with recipients naming it is 2024-02-02;
the later message raised in split_name on an earlier recipient, was
counted as a parse error, and its date was never folded in. -/
theorem claim2_code_bug :
    Option.map ContactRecord.last_contacted
      (lookupC (extract_contacts false bugMsgs2).1 "b@y.com") = some "2024-01-01T00:00:00"
    ∧ claimMaxDate false "b@y.com" bugMsgs2 = "2024-02-02T00:00:00"
    ∧ (extract_contacts false bugMsgs2).2.parse_errors = 1 := by
  refine ⟨by decide, by decide, by decide⟩

/-- Claim C7 evaluation at the failing input: one automated recipient
occurrence exists in a sent message with recipients, but the counter
stays at zero because split_name raised on an earlier recipient of the
same message and aborted the recipient loop. -/
theorem claim7_code_bug :
    (extract_contacts false bugMsgs7).2.automated_emails_filtered = 0
    ∧ claimAutoCount false bugMsgs7 = 1 := by
  refine ⟨by decide, by decide⟩

/-- Counterexample for claim C4: permuting two archives that hold the
same email with equal last_contacted and different notes changes the
merged notes, because the replace rule keeps the first archive on a
tie. -/
theorem claim4_cex :
    [tieRes2, tieRes1].Perm [tieRes1, tieRes2]
    ∧ Option.map ContactRecord.notes
        (lookupC (mergeAllResults [tieRes1, tieRes2]).1 "a@x.com") = some "note1"
    ∧ Option.map ContactRecord.notes
        (lookupC (mergeAllResults [tieRes2, tieRes1]).1 "a@x.com") = some "note2"
    ∧ Option.map ContactRecord.notes
        (lookupC (mergeAllResults [tieRes1, tieRes2]).1 "a@x.com")
      ≠ Option.map ContactRecord.notes
        (lookupC (mergeAllResults [tieRes2, tieRes1]).1 "a@x.com") := by
  refine ⟨List.Perm.swap _ _ _, by decide, by decide, by decide⟩

/-! Lemmas for claim C8: the contact map evolves independently of the
statistics, and the parse-error counter adds one per message whose
processing raises. -/

theorem foldPairs_fst_auto (iso_date notes phone : String) (prs : List (String × String)) :
    ∀ (c : Contacts) (a b : Nat),
      (foldPairs iso_date notes phone c a prs).1 = (foldPairs iso_date notes phone c b prs).1 := by
  induction prs with
  | nil => intro c a b; rfl
  | cons pr rest ih =>
    intro c a b
    obtain ⟨display_name, em⟩ := pr
    unfold foldPairs
    by_cases h1 : normEmail em = ""
    · simp only [if_pos h1]
      exact ih c a b
    · simp only [if_neg h1]
      by_cases h2 : is_automated_email (normEmail em) = true
      · simp only [if_pos h2]
        exact ih c (a + 1) (b + 1)
      · simp only [Bool.not_eq_true] at h2
        simp only [h2, Bool.false_eq_true, if_false]
        cases split_name display_name with
        | none => rfl
        | some fl =>
          obtain ⟨fn, ln⟩ := fl
          cases lookupC c (normEmail em) with
          | none => exact ih _ a b
          | some ex => exact ih _ a b

theorem foldPairs_crash (iso_date notes phone : String) (prs : List (String × String)) :
    ∀ (c : Contacts) (a : Nat),
      (foldPairs iso_date notes phone c a prs).2.2 = loopAborts prs := by
  induction prs with
  | nil => intro c a; rfl
  | cons pr rest ih =>
    intro c a
    obtain ⟨display_name, em⟩ := pr
    unfold foldPairs loopAborts
    by_cases h1 : normEmail em = ""
    · simp only [if_pos h1]
      exact ih c a
    · simp only [if_neg h1]
      by_cases h2 : is_automated_email (normEmail em) = true
      · simp only [if_pos h2]
        exact ih c (a + 1)
      · simp only [Bool.not_eq_true] at h2
        simp only [h2, Bool.false_eq_true, if_false]
        cases split_name display_name with
        | none => rfl
        | some fl =>
          obtain ⟨fn, ln⟩ := fl
          cases lookupC c (normEmail em) with
          | none => exact ih _ a
          | some ex => exact ih _ a


theorem step_contacts (assume_sent : Bool) (st : ScanState) (rm : RawMsg) :
    (step assume_sent st rm).contacts = cstep assume_sent st.contacts rm := by
  cases rm with
  | raising sentC recipC => rfl
  | ok m =>
    unfold step cstep
    by_cases hs : is_sent_message m.labels assume_sent = true
    · simp only [if_pos hs]
      by_cases hp : m.pairs.isEmpty = true
      · simp only [if_pos hp]
      · simp only [if_neg hp]
        exact foldPairs_fst_auto _ _ _ _ _ _ _
    · simp only [Bool.not_eq_true] at hs
      simp only [hs, Bool.false_eq_true, if_false]

theorem step_parse (assume_sent : Bool) (st : ScanState) (rm : RawMsg) :
    (step assume_sent st rm).stats.parse_errors
      = st.stats.parse_errors + msgParseDelta assume_sent rm := by
  cases rm with
  | raising sentC recipC => rfl
  | ok m =>
    unfold step msgParseDelta
    by_cases hs : is_sent_message m.labels assume_sent = true
    · simp only [if_pos hs, hs, Bool.true_and]
      by_cases hp : m.pairs.isEmpty = true
      · simp [hp]
      · simp only [Bool.not_eq_true] at hp
        simp only [hp, if_pos rfl, Bool.not_false, Bool.true_and, if_neg]
        rw [foldPairs_crash]
        by_cases hc : loopAborts m.pairs = true
        · simp [hc]
        · simp only [Bool.not_eq_true] at hc
          simp [hc]
    · simp only [Bool.not_eq_true] at hs
      simp [hs]

theorem fold_contacts (assume_sent : Bool) (l : List RawMsg) :
    ∀ st : ScanState,
      (l.foldl (step assume_sent) st).contacts = l.foldl (cstep assume_sent) st.contacts := by
  induction l with
  | nil => intro st; rfl
  | cons rm rest ih =>
    intro st
    rw [List.foldl_cons, List.foldl_cons, ih, step_contacts]

theorem fold_parse (assume_sent : Bool) (l : List RawMsg) :
    ∀ st : ScanState,
      (l.foldl (step assume_sent) st).stats.parse_errors
        = st.stats.parse_errors + (l.map (msgParseDelta assume_sent)).sum := by
  induction l with
  | nil => intro st; simp
  | cons rm rest ih =>
    intro st
    rw [List.foldl_cons, ih, step_parse, List.map_cons, List.sum_cons]
    omega

/-- Claim C8: a message whose fact derivation raises adds exactly one
to the parse-error counter, leaves the contact map exactly as if the
message were absent, and the scan continues through the remaining
messages. -/
theorem claim8 (assume_sent : Bool) (pre post : List RawMsg) (sentC recipC : Bool) :
    (extract_contacts assume_sent (pre ++ RawMsg.raising sentC recipC :: post)).1
      = (extract_contacts assume_sent (pre ++ post)).1
    ∧ (extract_contacts assume_sent (pre ++ RawMsg.raising sentC recipC :: post)).2.parse_errors
      = (extract_contacts assume_sent (pre ++ post)).2.parse_errors + 1 := by
  constructor
  · show ((pre ++ RawMsg.raising sentC recipC :: post).foldl (step assume_sent)
        ⟨[], initStats⟩).contacts
      = ((pre ++ post).foldl (step assume_sent) ⟨[], initStats⟩).contacts
    rw [fold_contacts, fold_contacts, List.foldl_append, List.foldl_append, List.foldl_cons]
    rfl
  · show ((pre ++ RawMsg.raising sentC recipC :: post).foldl (step assume_sent)
        ⟨[], initStats⟩).stats.parse_errors
      = ((pre ++ post).foldl (step assume_sent) ⟨[], initStats⟩).stats.parse_errors + 1
    rw [fold_parse, fold_parse]
    simp [msgParseDelta]
    omega



theorem foldIntoExisting_email (ex : ContactRecord) (fn ln phone iso notes : String) :
    (foldIntoExisting ex fn ln phone iso notes).email = ex.email := rfl

theorem foldIntoExisting_first {ex : ContactRecord} (fn ln phone iso notes : String)
    (h : ex.first_name ≠ "") :
    (foldIntoExisting ex fn ln phone iso notes).first_name = ex.first_name := by
  simp [foldIntoExisting, h]

theorem foldIntoExisting_last {ex : ContactRecord} (fn ln phone iso notes : String)
    (h : ex.last_name ≠ "") :
    (foldIntoExisting ex fn ln phone iso notes).last_name = ex.last_name := by
  simp [foldIntoExisting, h]

/-- Persistence of a record and of its non-empty names through the
recipient loop of one message. -/
theorem foldPairs_preserve (iso_date notes phone : String) (prs : List (String × String)) :
    ∀ (c : Contacts) (a : Nat) (e : String) (r : ContactRecord),
      lookupC c e = some r →
      ∃ rr, lookupC (foldPairs iso_date notes phone c a prs).1 e = some rr
        ∧ (r.first_name ≠ "" → rr.first_name = r.first_name)
        ∧ (r.last_name ≠ "" → rr.last_name = r.last_name) := by
  induction prs with
  | nil =>
    intro c a e r h
    exact ⟨r, h, fun _ => rfl, fun _ => rfl⟩
  | cons pr rest ih =>
    intro c a e r h
    obtain ⟨display_name, em⟩ := pr
    unfold foldPairs
    by_cases h1 : normEmail em = ""
    · simp only [if_pos h1]
      exact ih c a e r h
    · simp only [if_neg h1]
      by_cases h2 : is_automated_email (normEmail em) = true
      · simp only [if_pos h2]
        exact ih c (a + 1) e r h
      · simp only [Bool.not_eq_true] at h2
        simp only [h2, Bool.false_eq_true, if_false]
        cases split_name display_name with
        | none => exact ⟨r, h, fun _ => rfl, fun _ => rfl⟩
        | some fl =>
          obtain ⟨fn, ln⟩ := fl
          cases hl : lookupC c (normEmail em) with
          | none =>
            have hne : normEmail em ≠ e := by
              intro hh
              rw [hh, h] at hl
              exact Option.noConfusion hl
            exact ih _ a e r (lookupC_append_some _ h)
          | some ex =>
            by_cases hk : normEmail em = e
            · subst hk
              rw [h] at hl
              injection hl with hl
              subst hl
              have hup := lookupC_updateC_self c (normEmail em)
                (foldIntoExisting r fn ln phone iso_date notes)
              rw [h] at hup
              rcases ih _ a _ _ hup with ⟨rr, hrr, hf, hlp⟩
              refine ⟨rr, hrr, ?_, ?_⟩
              · intro hne
                rw [hf (by rw [foldIntoExisting_first _ _ _ _ _ hne]; exact hne),
                  foldIntoExisting_first _ _ _ _ _ hne]
              · intro hne
                rw [hlp (by rw [foldIntoExisting_last _ _ _ _ _ hne]; exact hne),
                  foldIntoExisting_last _ _ _ _ _ hne]
            · have := lookupC_updateC_ne c
                (foldIntoExisting ex fn ln phone iso_date notes) (k := normEmail em) (e := e)
                (fun hh => hk hh.symm)
              rw [h] at this
              exact ih _ a e r this

/-- Persistence through one message of the scan. -/
theorem cstep_preserve (assume_sent : Bool) (c : Contacts) (rm : RawMsg) (e : String)
    (r : ContactRecord) (h : lookupC c e = some r) :
    ∃ rr, lookupC (cstep assume_sent c rm) e = some rr
      ∧ (r.first_name ≠ "" → rr.first_name = r.first_name)
      ∧ (r.last_name ≠ "" → rr.last_name = r.last_name) := by
  cases rm with
  | raising sentC recipC => exact ⟨r, h, fun _ => rfl, fun _ => rfl⟩
  | ok m =>
    unfold cstep
    by_cases hs : is_sent_message m.labels assume_sent = true
    · simp only [if_pos hs]
      by_cases hp : m.pairs.isEmpty = true
      · simp only [if_pos hp]
        exact ⟨r, h, fun _ => rfl, fun _ => rfl⟩
      · simp only [if_neg hp]
        exact foldPairs_preserve _ _ _ _ _ _ e r h
    · simp only [Bool.not_eq_true] at hs
      simp only [hs, Bool.false_eq_true, if_false]
      exact ⟨r, h, fun _ => rfl, fun _ => rfl⟩

/-- Persistence through a whole tail of the scan. -/
theorem cfold_preserve (assume_sent : Bool) (extra : List RawMsg) :
    ∀ (c : Contacts) (e : String) (r : ContactRecord),
      lookupC c e = some r →
      ∃ rr, lookupC (extra.foldl (cstep assume_sent) c) e = some rr
        ∧ (r.first_name ≠ "" → rr.first_name = r.first_name)
        ∧ (r.last_name ≠ "" → rr.last_name = r.last_name) := by
  induction extra with
  | nil =>
    intro c e r h
    exact ⟨r, h, fun _ => rfl, fun _ => rfl⟩
  | cons rm rest ih =>
    intro c e r h
    rcases cstep_preserve assume_sent c rm e r h with ⟨r1, h1, hf1, hl1⟩
    rcases ih _ e r1 h1 with ⟨rr, hrr, hf2, hl2⟩
    refine ⟨rr, by rw [List.foldl_cons]; exact hrr, ?_, ?_⟩
    · intro hne
      rw [hf2 (by rw [hf1 hne]; exact hne), hf1 hne]
    · intro hne
      rw [hl2 (by rw [hl1 hne]; exact hne), hl1 hne]

/-- Claim C6: once first_name or last_name is non-empty, no later
message of the scan and no cross-archive merge step changes it. -/
theorem claim6 :
    (∀ (assume_sent : Bool) (msgs extra : List RawMsg) (e : String) (r : ContactRecord),
      lookupC (extract_contacts assume_sent msgs).1 e = some r →
      ∃ rr, lookupC (extract_contacts assume_sent (msgs ++ extra)).1 e = some rr
        ∧ (r.first_name ≠ "" → rr.first_name = r.first_name)
        ∧ (r.last_name ≠ "" → rr.last_name = r.last_name))
    ∧ (∀ ex inc : ContactRecord,
        (ex.first_name ≠ "" → (merge_contact ex inc).first_name = ex.first_name)
        ∧ (ex.last_name ≠ "" → (merge_contact ex inc).last_name = ex.last_name)) := by
  constructor
  · intro assume_sent msgs extra e r h
    have hpre : (extract_contacts assume_sent msgs).1
        = msgs.foldl (cstep assume_sent) [] := by
      show (msgs.foldl (step assume_sent) ⟨[], initStats⟩).contacts = _
      rw [fold_contacts]
    have hfull : (extract_contacts assume_sent (msgs ++ extra)).1
        = extra.foldl (cstep assume_sent) (msgs.foldl (cstep assume_sent) []) := by
      show ((msgs ++ extra).foldl (step assume_sent) ⟨[], initStats⟩).contacts = _
      rw [fold_contacts, List.foldl_append]
    rw [hpre] at h
    rw [hfull]
    exact cfold_preserve assume_sent extra _ e r h
  · intro ex inc
    exact ⟨merge_contact_first ex inc, merge_contact_last ex inc⟩

/-- Witness for claim C6: a second message with a different display
name does not change the name recorded by the first. -/
theorem claim6_witness :
    ∃ rr, lookupC (extract_contacts false ([RawMsg.ok wMsg1] ++ [RawMsg.ok wMsg2])).1 "a@x.com"
        = some rr
      ∧ (wRec1.first_name ≠ "" → rr.first_name = wRec1.first_name)
      ∧ (wRec1.last_name ≠ "" → rr.last_name = wRec1.last_name) :=
  claim6.1 false [RawMsg.ok wMsg1] [RawMsg.ok wMsg2] "a@x.com" wRec1 (by decide)



theorem foldIntoExisting_pair (ex : ContactRecord) (fn ln phone iso notes : String) :
    ((foldIntoExisting ex fn ln phone iso notes).last_contacted = ex.last_contacted
      ∧ (foldIntoExisting ex fn ln phone iso notes).notes = ex.notes)
    ∨ ((foldIntoExisting ex fn ln phone iso notes).last_contacted = iso
      ∧ (foldIntoExisting ex fn ln phone iso notes).notes = notes) := by
  unfold foldIntoExisting
  dsimp only
  split
  · right
    exact ⟨rfl, rfl⟩
  · left
    exact ⟨rfl, rfl⟩

/-- Generic entry invariant for the recipient loop of one message:
every entry of the resulting map satisfies Q provided the old entries
do, newly created records do, and the update of an existing record
preserves Q. -/
theorem foldPairs_entries (Q : String → ContactRecord → Prop) (iso_date notes phone : String)
    (prs : List (String × String)) :
    ∀ (c : Contacts) (a : Nat),
      (∀ p ∈ c, Q p.1 p.2) →
      (∀ pr ∈ prs, ∀ fn ln : String, normEmail pr.2 ≠ "" →
        Q (normEmail pr.2) ⟨normEmail pr.2, fn, ln, phone, iso_date, notes⟩) →
      (∀ pr ∈ prs, ∀ (ex : ContactRecord) (fn ln : String), Q (normEmail pr.2) ex →
        Q (normEmail pr.2) (foldIntoExisting ex fn ln phone iso_date notes)) →
      ∀ p ∈ (foldPairs iso_date notes phone c a prs).1, Q p.1 p.2 := by
  induction prs with
  | nil =>
    intro c a hc hins hupd p hp
    exact hc p hp
  | cons pr rest ih =>
    intro c a hc hins hupd p hp
    obtain ⟨display_name, em⟩ := pr
    have hins2 : ∀ pr2 ∈ rest, ∀ fn ln : String, normEmail pr2.2 ≠ "" →
        Q (normEmail pr2.2) ⟨normEmail pr2.2, fn, ln, phone, iso_date, notes⟩ :=
      fun pr2 h2 => hins pr2 (List.mem_cons_of_mem _ h2)
    have hupd2 : ∀ pr2 ∈ rest, ∀ (ex : ContactRecord) (fn ln : String),
        Q (normEmail pr2.2) ex →
        Q (normEmail pr2.2) (foldIntoExisting ex fn ln phone iso_date notes) :=
      fun pr2 h2 => hupd pr2 (List.mem_cons_of_mem _ h2)
    unfold foldPairs at hp
    by_cases h1 : normEmail em = ""
    · rw [if_pos h1] at hp
      exact ih c a hc hins2 hupd2 p hp
    · rw [if_neg h1] at hp
      by_cases h2 : is_automated_email (normEmail em) = true
      · rw [if_pos h2] at hp
        exact ih c (a + 1) hc hins2 hupd2 p hp
      · simp only [Bool.not_eq_true] at h2
        simp only [h2, Bool.false_eq_true, if_false] at hp
        cases hsn : split_name display_name with
        | none =>
          rw [hsn] at hp
          exact hc p hp
        | some fl =>
          obtain ⟨fn, ln⟩ := fl
          rw [hsn] at hp
          cases hl : lookupC c (normEmail em) with
          | none =>
            rw [hl] at hp
            refine ih _ a ?_ hins2 hupd2 p hp
            intro q hq
            rcases List.mem_append.mp hq with hq | hq
            · exact hc q hq
            · rcases List.mem_singleton.mp hq with rfl
              exact hins (display_name, em) (List.mem_cons_self _ _) fn ln h1
          | some ex =>
            rw [hl] at hp
            refine ih _ a ?_ hins2 hupd2 p hp
            intro q hq
            rcases mem_updateC hq with hq | hq
            · exact hc q hq
            · rcases hq with rfl
              exact hupd (display_name, em) (List.mem_cons_self _ _) ex fn ln
                (hc _ (lookupC_mem hl))



theorem noteSource_mono {assume_sent : Bool} {msgs more : List RawMsg} {e : String}
    {r : ContactRecord} (h : noteSource assume_sent msgs e r) :
    noteSource assume_sent (msgs ++ more) e r := by
  rcases h with ⟨mm, hmem, hs, hp, hn, h1, h2⟩
  exact ⟨mm, List.mem_append_left _ hmem, hs, hp, hn, h1, h2⟩

theorem cstep_noteSource (assume_sent : Bool) (seen : List RawMsg) (c : Contacts)
    (rm : RawMsg) (hc : ∀ p ∈ c, noteSource assume_sent seen p.1 p.2) :
    ∀ p ∈ cstep assume_sent c rm, noteSource assume_sent (seen ++ [rm]) p.1 p.2 := by
  cases rm with
  | raising sentC recipC =>
    exact fun p hp => noteSource_mono (hc p hp)
  | ok m =>
    unfold cstep
    by_cases hs : is_sent_message m.labels assume_sent = true
    · simp only [if_pos hs]
      by_cases hp : m.pairs.isEmpty = true
      · simp only [if_pos hp]
        exact fun p hp2 => noteSource_mono (hc p hp2)
      · simp only [if_neg hp]
        have hpairs : m.pairs ≠ [] := by
          intro hh
          exact hp (by rw [hh]; rfl)
        apply foldPairs_entries
        · exact fun p hp2 => noteSource_mono (hc p hp2)
        · intro pr hpr fn ln hne
          exact ⟨m, List.mem_append_right _ (List.mem_singleton.mpr rfl), hs, hpairs,
            ⟨pr, hpr, rfl⟩, rfl, rfl⟩
        · intro pr hpr ex fn ln hex
          rcases foldIntoExisting_pair ex fn ln m.phone m.iso_date
              (String.mk (m.body.data.take 200)) with ⟨hl, hn⟩ | ⟨hl, hn⟩
          · rcases hex with ⟨mm, hmem, hs2, hp2, hn2, h1, h2⟩
            exact ⟨mm, hmem, hs2, hp2, hn2, by rw [hl, h1], by rw [hn, h2]⟩
          · exact ⟨m, List.mem_append_right _ (List.mem_singleton.mpr rfl), hs, hpairs,
              ⟨pr, hpr, rfl⟩, hl, hn⟩
    · simp only [Bool.not_eq_true] at hs
      simp only [hs, Bool.false_eq_true, if_false]
      exact fun p hp => noteSource_mono (hc p hp)

theorem cfold_noteSource (assume_sent : Bool) (l : List RawMsg) :
    ∀ (seen : List RawMsg) (c : Contacts),
      (∀ p ∈ c, noteSource assume_sent seen p.1 p.2) →
      ∀ p ∈ l.foldl (cstep assume_sent) c, noteSource assume_sent (seen ++ l) p.1 p.2 := by
  induction l with
  | nil =>
    intro seen c hc p hp
    rw [List.append_nil]
    exact hc p hp
  | cons rm rest ih =>
    intro seen c hc p hp
    rw [List.foldl_cons] at hp
    have := ih (seen ++ [rm]) _ (cstep_noteSource assume_sent seen c rm hc) p hp
    rwa [List.append_assoc, List.singleton_append] at this



/-- Generic entry invariant through one archive merge. -/
theorem mergeArchive_entries (Q : String → ContactRecord → Prop)
    (hQ : ∀ (k : String) (ex inc : ContactRecord), Q k ex → Q k inc →
      Q k (merge_contact ex inc)) :
    ∀ (m acc : Contacts), (∀ p ∈ acc, Q p.1 p.2) → (∀ p ∈ m, Q p.1 p.2) →
      ∀ p ∈ mergeArchive acc m, Q p.1 p.2 := by
  intro m
  induction m with
  | nil =>
    intro acc hacc hm p hp
    exact hacc p hp
  | cons q rest ih =>
    intro acc hacc hm p hp
    obtain ⟨k, v⟩ := q
    unfold mergeArchive at hp
    rw [List.foldl_cons] at hp
    have hv : Q k v := hm (k, v) (List.mem_cons_self _ _)
    have hm2 : ∀ p ∈ rest, Q p.1 p.2 := fun p2 h2 => hm p2 (List.mem_cons_of_mem _ h2)
    cases hl : lookupC acc k with
    | none =>
      rw [hl] at hp
      refine ih _ ?_ hm2 p hp
      intro q2 hq2
      rcases List.mem_append.mp hq2 with hq2 | hq2
      · exact hacc q2 hq2
      · rcases List.mem_singleton.mp hq2 with rfl
        exact hv
    | some ex =>
      rw [hl] at hp
      refine ih _ ?_ hm2 p hp
      intro q2 hq2
      rcases mem_updateC hq2 with hq2 | hq2
      · exact hacc q2 hq2
      · rcases hq2 with rfl
        exact hQ k ex v (hacc _ (lookupC_mem hl)) hv

/-- Generic entry invariant through the whole cross-archive merge. -/
theorem mergeFold_entries (Q : String → ContactRecord → Prop)
    (hQ : ∀ (k : String) (ex inc : ContactRecord), Q k ex → Q k inc →
      Q k (merge_contact ex inc)) :
    ∀ (rs : List Contacts) (acc : Contacts), (∀ p ∈ acc, Q p.1 p.2) →
      (∀ m ∈ rs, ∀ p ∈ m, Q p.1 p.2) →
      ∀ p ∈ rs.foldl mergeArchive acc, Q p.1 p.2 := by
  intro rs
  induction rs with
  | nil =>
    intro acc hacc hrs p hp
    exact hacc p hp
  | cons m rest ih =>
    intro acc hacc hrs p hp
    rw [List.foldl_cons] at hp
    refine ih _ ?_ (fun m2 h2 => hrs m2 (List.mem_cons_of_mem _ h2)) p hp
    exact mergeArchive_entries Q hQ m acc hacc (hrs m (List.mem_cons_self _ _))

theorem extract_contacts_entries (assume_sent : Bool) (msgs : List RawMsg) :
    ∀ p ∈ (extract_contacts assume_sent msgs).1, noteSource assume_sent msgs p.1 p.2 := by
  intro p hp
  have h0 : (extract_contacts assume_sent msgs).1 = msgs.foldl (cstep assume_sent) [] := by
    show (msgs.foldl (step assume_sent) ⟨[], initStats⟩).contacts = _
    rw [fold_contacts]
  rw [h0] at hp
  have := cfold_noteSource assume_sent msgs [] [] (by intro q hq; simp at hq) p hp
  rwa [List.nil_append] at this

/-- Claim C5: at every point during single-archive aggregation and
after any cross-archive merge step, a record carries the last_contacted
and notes of one single message, and merge_contact moves the pair
atomically from one of its two arguments. -/
theorem claim5 :
    (∀ (assume_sent : Bool) (msgs : List RawMsg) (e : String) (r : ContactRecord),
      lookupC (extract_contacts assume_sent msgs).1 e = some r →
      noteSource assume_sent msgs e r)
    ∧ (∀ ex inc : ContactRecord,
      ((merge_contact ex inc).last_contacted = ex.last_contacted
        ∧ (merge_contact ex inc).notes = ex.notes)
      ∨ ((merge_contact ex inc).last_contacted = inc.last_contacted
        ∧ (merge_contact ex inc).notes = inc.notes))
    ∧ (∀ (archives : List (Bool × List RawMsg)) (e : String) (r : ContactRecord),
      lookupC (extract_contacts_from_paths archives).1 e = some r →
      ∃ a ∈ archives, noteSource a.1 a.2 e r) := by
  refine ⟨?_, merge_contact_pair, ?_⟩
  · intro assume_sent msgs e r h
    exact extract_contacts_entries assume_sent msgs (e, r) (lookupC_mem h)
  · intro archives e r h
    have hp0 := lookupC_mem h
    have hp1 : (e, r) ∈ (archives.map (fun a => extract_contacts a.1 a.2)).foldl
        (fun acc r2 => mergeArchive acc r2.1) [] := hp0
    rw [List.foldl_map] at hp1
    have hp2 : (e, r) ∈ (archives.map (fun y : Bool × List RawMsg =>
        (extract_contacts y.1 y.2).1)).foldl mergeArchive [] := by
      rw [List.foldl_map]
      exact hp1
    have hQ : ∀ (k : String) (ex inc : ContactRecord),
        (∃ a ∈ archives, noteSource a.1 a.2 k ex) →
        (∃ a ∈ archives, noteSource a.1 a.2 k inc) →
        ∃ a ∈ archives, noteSource a.1 a.2 k (merge_contact ex inc) := by
      intro k ex inc hex hinc
      rcases merge_contact_pair ex inc with ⟨hl, hn⟩ | ⟨hl, hn⟩
      · rcases hex with ⟨a, ha, mm, hmem, hs, hpr, hnm, e1, e2⟩
        exact ⟨a, ha, mm, hmem, hs, hpr, hnm, by rw [hl, e1], by rw [hn, e2]⟩
      · rcases hinc with ⟨a, ha, mm, hmem, hs, hpr, hnm, e1, e2⟩
        exact ⟨a, ha, mm, hmem, hs, hpr, hnm, by rw [hl, e1], by rw [hn, e2]⟩
    have harch : ∀ m ∈ archives.map (fun y : Bool × List RawMsg =>
        (extract_contacts y.1 y.2).1), ∀ p ∈ m,
        ∃ a ∈ archives, noteSource a.1 a.2 p.1 p.2 := by
      intro m hm p2 hp3
      rcases List.mem_map.mp hm with ⟨a, ha, rfl⟩
      exact ⟨a, ha, extract_contacts_entries a.1 a.2 p2 hp3⟩
    exact mergeFold_entries (fun k rec => ∃ a ∈ archives, noteSource a.1 a.2 k rec) hQ
      (archives.map (fun y : Bool × List RawMsg => (extract_contacts y.1 y.2).1)) []
      (by intro q hq; simp at hq) harch (e, r) hp2


/-- Witness for claim C5: the record built by one concrete sent
message carries that message date and body snippet. -/
theorem claim5_witness : noteSource false [RawMsg.ok wMsg1] "a@x.com" wRec1 :=
  claim5.1 false [RawMsg.ok wMsg1] "a@x.com" wRec1 (by decide)



/-! Well-formed keys: entry invariant for claim C10. -/

theorem normEmail_strip (e : String) : pyStrip (normEmail e) = normEmail e :=
  pyStrip_stripLower e

theorem normEmail_lower (e : String) : pyLower (normEmail e) = normEmail e :=
  pyLower_stripLower e

theorem cstep_wfKeys (assume_sent : Bool) (c : Contacts) (rm : RawMsg)
    (hc : ∀ p ∈ c, p.2.email = p.1 ∧ p.1 ≠ "" ∧ pyStrip p.1 = p.1 ∧ pyLower p.1 = p.1) :
    ∀ p ∈ cstep assume_sent c rm,
      p.2.email = p.1 ∧ p.1 ≠ "" ∧ pyStrip p.1 = p.1 ∧ pyLower p.1 = p.1 := by
  cases rm with
  | raising sentC recipC => exact hc
  | ok m =>
    unfold cstep
    by_cases hs : is_sent_message m.labels assume_sent = true
    · simp only [if_pos hs]
      by_cases hp : m.pairs.isEmpty = true
      · simp only [if_pos hp]
        exact hc
      · simp only [if_neg hp]
        refine foldPairs_entries
          (fun k rec => rec.email = k ∧ k ≠ "" ∧ pyStrip k = k ∧ pyLower k = k)
          _ _ _ _ _ _ hc ?_ ?_
        · intro pr hpr fn ln hne
          exact ⟨rfl, hne, normEmail_strip pr.2, normEmail_lower pr.2⟩
        · intro pr hpr ex fn ln hex
          exact ⟨by rw [foldIntoExisting_email]; exact hex.1, hex.2.1, hex.2.2.1, hex.2.2.2⟩
    · simp only [Bool.not_eq_true] at hs
      simp only [hs, Bool.false_eq_true, if_false]
      exact hc

theorem cfold_wfKeys (assume_sent : Bool) (l : List RawMsg) :
    ∀ c : Contacts,
      (∀ p ∈ c, p.2.email = p.1 ∧ p.1 ≠ "" ∧ pyStrip p.1 = p.1 ∧ pyLower p.1 = p.1) →
      ∀ p ∈ l.foldl (cstep assume_sent) c,
        p.2.email = p.1 ∧ p.1 ≠ "" ∧ pyStrip p.1 = p.1 ∧ pyLower p.1 = p.1 := by
  induction l with
  | nil => intro c hc; exact hc
  | cons rm rest ih =>
    intro c hc
    rw [List.foldl_cons]
    exact ih _ (cstep_wfKeys assume_sent c rm hc)

theorem extract_contacts_wfKeys (assume_sent : Bool) (msgs : List RawMsg) :
    ∀ p ∈ (extract_contacts assume_sent msgs).1,
      p.2.email = p.1 ∧ p.1 ≠ "" ∧ pyStrip p.1 = p.1 ∧ pyLower p.1 = p.1 := by
  have h0 : (extract_contacts assume_sent msgs).1 = msgs.foldl (cstep assume_sent) [] := by
    show (msgs.foldl (step assume_sent) ⟨[], initStats⟩).contacts = _
    rw [fold_contacts]
  rw [h0]
  exact cfold_wfKeys assume_sent msgs [] (by intro q hq; simp at hq)

/-- Claim C10: every key of a per-archive or merged contact map is the
stored record email, is non-empty, and is fixed under stripping and
lowercasing; no operation ever modifies a record email field, in
particular merge_contact keeps the existing one. -/
theorem claim10 :
    (∀ (assume_sent : Bool) (msgs : List RawMsg) (e : String) (r : ContactRecord),
      lookupC (extract_contacts assume_sent msgs).1 e = some r →
      r.email = e ∧ e ≠ "" ∧ pyStrip e = e ∧ pyLower e = e)
    ∧ (∀ (archives : List (Bool × List RawMsg)) (e : String) (r : ContactRecord),
      lookupC (extract_contacts_from_paths archives).1 e = some r →
      r.email = e ∧ e ≠ "" ∧ pyStrip e = e ∧ pyLower e = e)
    ∧ (∀ ex inc : ContactRecord, (merge_contact ex inc).email = ex.email) := by
  refine ⟨?_, ?_, fun ex inc => rfl⟩
  · intro assume_sent msgs e r h
    exact extract_contacts_wfKeys assume_sent msgs (e, r) (lookupC_mem h)
  · intro archives e r h
    have hp0 := lookupC_mem h
    have hp1 : (e, r) ∈ (archives.map (fun a => extract_contacts a.1 a.2)).foldl
        (fun acc r2 => mergeArchive acc r2.1) [] := hp0
    rw [List.foldl_map] at hp1
    have hp2 : (e, r) ∈ (archives.map (fun y : Bool × List RawMsg =>
        (extract_contacts y.1 y.2).1)).foldl mergeArchive [] := by
      rw [List.foldl_map]
      exact hp1
    refine mergeFold_entries
      (fun k rec => rec.email = k ∧ k ≠ "" ∧ pyStrip k = k ∧ pyLower k = k) ?_
      _ [] (by intro q hq; simp at hq) ?_ (e, r) hp2
    · intro k ex inc hex hinc
      exact ⟨by rw [merge_contact_email]; exact hex.1, hex.2.1, hex.2.2.1, hex.2.2.2⟩
    · intro m hm p2 hp3
      rcases List.mem_map.mp hm with ⟨a, ha, rfl⟩
      exact extract_contacts_wfKeys a.1 a.2 p2 hp3

/-- Witness for claim C10 at a concrete scan: the stored key is the
normalized email of the witness message. -/
theorem claim10_witness :
    wRec1.email = "a@x.com" ∧ ("a@x.com" : String) ≠ ""
      ∧ pyStrip "a@x.com" = "a@x.com" ∧ pyLower "a@x.com" = "a@x.com" :=
  claim10.1 false [RawMsg.ok wMsg1] "a@x.com" wRec1 (by decide)



theorem archDates_cons (k : String) (v : ContactRecord) (rest : Contacts) (e : String) :
    archDates ((k, v) :: rest) e
      = if k = e then v.last_contacted :: archDates rest e else archDates rest e := by
  unfold archDates
  rw [List.filter_cons]
  by_cases h : k = e
  · simp [h]
  · simp [h]

theorem mergeArchive_cons (acc : Contacts) (k : String) (v : ContactRecord) (rest : Contacts) :
    mergeArchive acc ((k, v) :: rest)
      = mergeArchive (match lookupC acc k with
          | none => acc ++ [(k, v)]
          | some ex => updateC acc k (merge_contact ex v)) rest := rfl

theorem mergeArchive_lc_some (m : Contacts) :
    ∀ (acc : Contacts) (e : String) (r : ContactRecord), lookupC acc e = some r →
      Option.map ContactRecord.last_contacted (lookupC (mergeArchive acc m) e)
        = some ((archDates m e).foldl lexMax r.last_contacted) := by
  induction m with
  | nil =>
    intro acc e r h
    show Option.map _ (lookupC acc e) = _
    rw [h]
    rfl
  | cons q rest ih =>
    intro acc e r h
    obtain ⟨k, v⟩ := q
    rw [mergeArchive_cons, archDates_cons]
    by_cases hk : k = e
    · subst hk
      rw [h, if_pos rfl]
      show Option.map _ (lookupC (mergeArchive (updateC acc k (merge_contact r v)) rest) k) = _
      have hup := lookupC_updateC_self acc k (merge_contact r v)
      rw [h] at hup
      rw [ih _ k (merge_contact r v) hup, List.foldl_cons, merge_contact_lc]
    · rw [if_neg hk]
      cases hl : lookupC acc k with
      | none =>
        show Option.map _ (lookupC (mergeArchive (acc ++ [(k, v)]) rest) e) = _
        exact ih _ e r (lookupC_append_some _ h)
      | some ex =>
        show Option.map _ (lookupC (mergeArchive (updateC acc k (merge_contact ex v)) rest) e)
          = _
        have h2 := lookupC_updateC_ne acc (merge_contact ex v) (k := k) (e := e)
          (fun hh => hk hh.symm)
        rw [h] at h2
        exact ih _ e r h2

theorem mergeArchive_lc_none (m : Contacts) :
    ∀ (acc : Contacts) (e : String), lookupC acc e = none →
      Option.map ContactRecord.last_contacted (lookupC (mergeArchive acc m) e)
        = if archDates m e = [] then none
          else some ((archDates m e).foldl lexMax "") := by
  induction m with
  | nil =>
    intro acc e h
    show Option.map _ (lookupC acc e) = _
    rw [h]
    simp [archDates]
  | cons q rest ih =>
    intro acc e h
    obtain ⟨k, v⟩ := q
    rw [mergeArchive_cons, archDates_cons]
    by_cases hk : k = e
    · subst hk
      rw [h, if_pos rfl]
      show Option.map _ (lookupC (mergeArchive (acc ++ [(k, v)]) rest) k) = _
      have hnew : lookupC (acc ++ [(k, v)]) k = some v := by
        rw [lookupC_append_none _ h]
        simp [lookupC]
      rw [mergeArchive_lc_some rest _ k v hnew]
      rw [if_neg (by simp), List.foldl_cons, lexMax_empty_left]
    · rw [if_neg hk]
      cases hl : lookupC acc k with
      | none =>
        show Option.map _ (lookupC (mergeArchive (acc ++ [(k, v)]) rest) e) = _
        have h2 : lookupC (acc ++ [(k, v)]) e = none := by
          rw [lookupC_append_none _ h]
          simp [lookupC, hk]
        exact ih _ e h2
      | some ex =>
        show Option.map _ (lookupC (mergeArchive (updateC acc k (merge_contact ex v)) rest) e)
          = _
        have h2 := lookupC_updateC_ne acc (merge_contact ex v) (k := k) (e := e)
          (fun hh => hk hh.symm)
        rw [h] at h2
        exact ih _ e h2



theorem mergeFold_lc_some (rs : List Contacts) :
    ∀ (acc : Contacts) (e : String) (r : ContactRecord), lookupC acc e = some r →
      Option.map ContactRecord.last_contacted (lookupC (rs.foldl mergeArchive acc) e)
        = some (((rs.map (fun m => archDates m e)).flatten).foldl lexMax r.last_contacted) := by
  induction rs with
  | nil =>
    intro acc e r h
    rw [List.foldl_nil]
    rw [h]
    rfl
  | cons m rest ih =>
    intro acc e r h
    rw [List.foldl_cons, List.map_cons, List.flatten_cons]
    rcases Option.map_eq_some'.mp (mergeArchive_lc_some m acc e r h) with ⟨r2, hr2, hlc⟩
    rw [ih _ e r2 hr2, hlc, List.foldl_append]

theorem mergeFold_lc_none (rs : List Contacts) :
    ∀ (acc : Contacts) (e : String), lookupC acc e = none →
      Option.map ContactRecord.last_contacted (lookupC (rs.foldl mergeArchive acc) e)
        = if (rs.all (fun m => decide (archDates m e = []))) = true then none
          else some (((rs.map (fun m => archDates m e)).flatten).foldl lexMax "") := by
  induction rs with
  | nil =>
    intro acc e h
    rw [List.foldl_nil, h]
    simp
  | cons m rest ih =>
    intro acc e h
    rw [List.foldl_cons, List.map_cons, List.flatten_cons, List.all_cons]
    by_cases hd : archDates m e = []
    · have h2 : lookupC (mergeArchive acc m) e = none := by
        have := mergeArchive_lc_none m acc e h
        rw [if_pos hd] at this
        exact Option.map_eq_none'.mp this
      rw [ih _ e h2, hd]
      simp
    · rcases Option.map_eq_some'.mp (by
          have := mergeArchive_lc_none m acc e h
          rw [if_neg hd] at this
          exact this) with ⟨r2, hr2, hlc⟩
      rw [mergeFold_lc_some rest _ e r2 hr2, hlc, List.foldl_append]
      rw [if_neg (by simp [hd])]

theorem foldl_lexMax_perm {l1 l2 : List String} (h : l1.Perm l2) (a : String) :
    l1.foldl lexMax a = l2.foldl lexMax a := by
  haveI : RightCommutative lexMax :=
    ⟨fun b x y => by rw [lexMax_assoc, lexMax_assoc, lexMax_comm x y]⟩
  exact h.foldl_eq a

theorem all_perm {α : Type} {l1 l2 : List α} (h : l1.Perm l2) (f : α → Bool) :
    l1.all f = l2.all f := by
  rw [Bool.eq_iff_iff, List.all_eq_true, List.all_eq_true]
  constructor
  · intro hh x hx
    exact hh x (h.mem_iff.mpr hx)
  · intro hh x hx
    exact hh x (h.mem_iff.mp hx)

/-- Claim C4 as amended: for every list of per-archive results and
every permutation of it, the cross-archive merge assigns every email
the same last_contacted, including the same presence of the email as a
key; first_name, last_name, notes and phone may depend on the
processing order. -/
theorem claim4_amended (rs1 rs2 : List (Contacts × Stats)) (hperm : rs1.Perm rs2)
    (e : String) :
    Option.map ContactRecord.last_contacted (lookupC (mergeAllResults rs1).1 e)
      = Option.map ContactRecord.last_contacted (lookupC (mergeAllResults rs2).1 e) := by
  have h1 : ∀ rs : List (Contacts × Stats), (mergeAllResults rs).1
      = (rs.map Prod.fst).foldl mergeArchive [] := by
    intro rs
    show rs.foldl (fun acc r => mergeArchive acc r.1) [] = _
    rw [List.foldl_map]
  rw [h1, h1]
  rw [mergeFold_lc_none _ [] e rfl, mergeFold_lc_none _ [] e rfl]
  have hmap := hperm.map Prod.fst
  have hcond := all_perm hmap (fun m => decide (archDates m e = []))
  have hdates := hmap.map (fun m => archDates m e)
  have hfold := foldl_lexMax_perm hdates.flatten ("" : String)
  rw [hcond, hfold]

/-- Witness for the amended claim C4 at the concrete tie archives: the
merged last_contacted agrees for both orders. -/
theorem claim4_witness :
    Option.map ContactRecord.last_contacted
      (lookupC (mergeAllResults [tieRes1, tieRes2]).1 "a@x.com")
    = Option.map ContactRecord.last_contacted
      (lookupC (mergeAllResults [tieRes2, tieRes1]).1 "a@x.com") :=
  claim4_amended [tieRes1, tieRes2] [tieRes2, tieRes1] (List.Perm.swap _ _ _) "a@x.com"


end Mbox
